import Mathlib

/-!
Verification development for the typed SQLite data-access layer
(`src/class.ts`): row codec, predicate compiler, schema validation,
insert batching, JSON import, and the connection pool.

The embedding mirrors the source: JavaScript runtime values are the
inductive `JSVal`, SQL bind parameters are `SqlParam` (the source's
`parseParameters` returns `string | number` only), and each table
operation is modelled up to the point where it would submit SQL, via
`OpResult` (`noSql` = short-circuit result, `runsSql` = the compiled
query and its parameter vector, `err` = validation error thrown before
any SQL).
-/

namespace BunSqlite

/-- A JSON document value, as produced by `JSON.parse` / consumed by
`JSON.stringify`. Object fields keep insertion order, as JS objects do.
Integral numbers carry their exact value; a numeric literal with a
fraction or exponent (`jfloat`) denotes an IEEE double, whose
floating-point value is outside this embedding — the model carries the
source literal and no claim depends on the value, only on the fact
that such text parses. -/
inductive JsonVal where
  | jnull : JsonVal
  | jbool : Bool → JsonVal
  | jnum : Int → JsonVal
  | jfloat : String → JsonVal
  | jstr : String → JsonVal
  | jarr : List JsonVal → JsonVal
  | jobj : List (String × JsonVal) → JsonVal

/-- A JavaScript runtime value as it reaches `parseParameters`
(src/class.ts:2988): a number (`num` for integral values, `floatNum`
for a non-integral IEEE double carried by its decimal literal), a
string, a boolean, a `Date` (carrying its millisecond epoch), a plain
object/array (carried as a JSON document), `null`, or `undefined`. -/
inductive JSVal where
  | num : Int → JSVal
  | floatNum : String → JSVal
  | str : String → JSVal
  | bool : Bool → JSVal
  | date : Int → JSVal
  | jobj : JsonVal → JSVal
  | null : JSVal
  | undefVal : JSVal

/-- A SQL bind parameter. The source's `parseParameters`
(src/class.ts:2988) has return type `(string | number)[]`, so a bound
parameter is a number or a string — never SQL NULL. `i` is an integral
number; `fp` is a non-integral (REAL) number carried by its decimal
literal, the double itself being outside the embedding. -/
inductive SqlParam where
  | i : Int → SqlParam
  | fp : String → SqlParam
  | s : String → SqlParam
deriving DecidableEq, Repr

/-- Column type tags used by the schema (`column.type` strings in
src/class.ts: "number", "float", "string", "Date", "boolean", "json"). -/
inductive ColType where
  | number | float | string | date | boolean | json
deriving DecidableEq, Repr

/-- Lowercase hexadecimal digit for `n < 16`. -/
def hexDigitChar (n : Nat) : Char :=
  if n < 10 then Char.ofNat ('0'.toNat + n) else Char.ofNat ('a'.toNat + n - 10)

/-- Escape a character for a JSON string literal, as `JSON.stringify`
does: quote and backslash get a backslash, the control characters
backspace, tab, newline, form-feed and carriage-return get their short
escapes, any other control character becomes `\u00xx`, and everything
else passes through. -/
def escapeChar (c : Char) : List Char :=
  if c = '"' ∨ c = '\\' then ['\\', c]
  else if c = '\x08' then ['\\', 'b']
  else if c = '\t' then ['\\', 't']
  else if c = '\n' then ['\\', 'n']
  else if c = '\x0c' then ['\\', 'f']
  else if c = '\r' then ['\\', 'r']
  else if c.toNat < 32 then
    ['\\', 'u', '0', '0', hexDigitChar (c.toNat / 16), hexDigitChar (c.toNat % 16)]
  else [c]

/-- Escape a string for inclusion in a JSON string literal. -/
def escapeString (s : String) : String :=
  ⟨s.data.flatMap escapeChar⟩

/-- JavaScript's `Array.prototype.join`: concatenate with a separator. -/
def joinSep (sep : String) : List String → String
  | [] => ""
  | [x] => x
  | x :: y :: rest => x ++ sep ++ joinSep sep (y :: rest)

mutual

/-- `JSON.stringify` on a JSON document (object/array fields in
insertion order, no added whitespace). A non-integral number prints as
its carried literal (the real function prints the double's shortest
decimal form; no claim depends on a non-integral number's text). -/
def stringifyJson : JsonVal → String
  | .jnull => "null"
  | .jbool true => "true"
  | .jbool false => "false"
  | .jnum n => toString n
  | .jfloat lit => lit
  | .jstr s => "\"" ++ escapeString s ++ "\""
  | .jarr xs => "[" ++ stringifyElems xs ++ "]"
  | .jobj fs => "\x7b" ++ stringifyFields fs ++ "\x7d"

/-- Comma-separated array elements of a stringified JSON array. -/
def stringifyElems : List JsonVal → String
  | [] => ""
  | [x] => stringifyJson x
  | x :: y :: rest => stringifyJson x ++ "," ++ stringifyElems (y :: rest)

/-- Comma-separated `"key":value` pairs of a stringified JSON object. -/
def stringifyFields : List (String × JsonVal) → String
  | [] => ""
  | [kv] => "\"" ++ escapeString kv.1 ++ "\":" ++ stringifyJson kv.2
  | kv :: kw :: rest =>
      "\"" ++ escapeString kv.1 ++ "\":" ++ stringifyJson kv.2 ++ "," ++
        stringifyFields (kw :: rest)

end

/-- One encoded value: the body of the `map` in `parseParameters`
(src/class.ts:2988-3007). Numbers and strings pass through; booleans
become 1/0; `Date` becomes its millisecond epoch; non-null objects are
`JSON.stringify`-ed; `null` and `undefined` become the empty string
(the `param === null || param === undefined` branch returns `""`). -/
def encodeParam : JSVal → SqlParam
  | .num n => .i n
  | .floatNum lit => .fp lit
  | .str t => .s t
  | .bool b => .i (if b then 1 else 0)
  | .date ms => .i ms
  | .jobj j => .s (stringifyJson j)
  | .null => .s ""
  | .undefVal => .s ""

/-- `parseParameters` (src/class.ts:2988): encode a list of values. -/
def parseParameters (params : List JSVal) : List SqlParam :=
  params.map encodeParam

/-- JSON whitespace: space, tab, line feed, carriage return — the four
characters `JSON.parse` skips between tokens. -/
def isJsonWs (c : Char) : Bool :=
  c = ' ' ∨ c = '\t' ∨ c = '\n' ∨ c = '\r'

/-- Skip JSON whitespace. -/
def skipWs (cs : List Char) : List Char :=
  cs.dropWhile isJsonWs

/-- The value of a hexadecimal digit, or `none`. -/
def hexVal? (c : Char) : Option Nat :=
  if c.isDigit then some (c.toNat - '0'.toNat)
  else if 'a' ≤ c ∧ c ≤ 'f' then some (c.toNat - 'a'.toNat + 10)
  else if 'A' ≤ c ∧ c ≤ 'F' then some (c.toNat - 'A'.toNat + 10)
  else none

/-- Prepend a decoded character to a string-parse result. -/
def consStr (ch : Char) : Option (String × List Char) → Option (String × List Char)
  | some (s, rem) => some (⟨ch :: s.data⟩, rem)
  | none => none

/-- Parse a JSON string body up to (and consuming) the closing quote,
as `JSON.parse` does: the escapes `\"`, `\\`, `\/`, `\b`, `\f`, `\n`,
`\r`, `\t` and `\uXXXX` are decoded, a raw control character (below
U+0020) is rejected, and any other character passes through. (A
`\uXXXX` escape in the surrogate range denotes an unpaired UTF-16 code
unit, which a Lean `Char` cannot carry; it decodes to NUL here — no
claim touches surrogate escapes, only the fact that they parse.) -/
def parseStringBody : Nat → List Char → Option (String × List Char)
  | 0, _ => none
  | _ + 1, [] => none
  | fuel + 1, c :: rest =>
      if c = '"' then some ("", rest)
      else if c = '\\' then
        match rest with
        | [] => none
        | e :: rest2 =>
            if e = '"' ∨ e = '\\' ∨ e = '/' then
              consStr e (parseStringBody fuel rest2)
            else if e = 'b' then consStr '\x08' (parseStringBody fuel rest2)
            else if e = 'f' then consStr '\x0c' (parseStringBody fuel rest2)
            else if e = 'n' then consStr '\n' (parseStringBody fuel rest2)
            else if e = 'r' then consStr '\r' (parseStringBody fuel rest2)
            else if e = 't' then consStr '\t' (parseStringBody fuel rest2)
            else if e = 'u' then
              match rest2 with
              | h1 :: h2 :: h3 :: h4 :: rest3 =>
                  match hexVal? h1, hexVal? h2, hexVal? h3, hexVal? h4 with
                  | some a, some b, some c', some d =>
                      consStr (Char.ofNat (((a * 16 + b) * 16 + c') * 16 + d))
                        (parseStringBody fuel rest3)
                  | _, _, _, _ => none
              | _ => none
            else none
      else if c.toNat < 32 then none
      else consStr c (parseStringBody fuel rest)

/-- Test whether a list of characters starts with the given prefix word. -/
def startsWithChars : List Char → List Char → Bool
  | [], _ => true
  | _ :: _, [] => false
  | p :: ps, c :: cs => p = c && startsWithChars ps cs

/-- Take the leading run of decimal digits. -/
def takeDigits (cs : List Char) : List Char × List Char :=
  (cs.takeWhile Char.isDigit, cs.dropWhile Char.isDigit)

/-- The numeric value of a digit run. -/
def digitsVal (ds : List Char) : Nat :=
  ds.foldl (fun a c => a * 10 + (c.toNat - '0'.toNat)) 0

/-- Parse a JSON numeric literal, per the JSON grammar `JSON.parse`
implements: an optional minus sign, then either `0` or a nonzero digit
followed by digits (so a leading zero ends the integer part and any
following digit is left unconsumed, failing the surrounding parse as
the real parser does), then an optional fraction (a dot with at least
one digit — otherwise the dot is left unconsumed) and an optional
exponent (`e`/`E`, optional sign, at least one digit). A literal with
neither fraction nor exponent is an exact integer; one with either
denotes an IEEE double and is kept as its literal (`jfloat`). -/
def parseNumber (cs : List Char) : Option (JsonVal × List Char) :=
  let (neg, cs1) :=
    match cs with
    | '-' :: t => (true, t)
    | _ => (false, cs)
  match cs1 with
  | [] => none
  | d :: tl =>
      if ¬ d.isDigit then none
      else
        let (ipart, cs2) := if d = '0' then (['0'], tl) else takeDigits cs1
        let (fpart, cs3) :=
          match cs2 with
          | '.' :: t =>
              let (ds, r) := takeDigits t
              if ds.isEmpty then (([] : List Char), cs2) else ('.' :: ds, r)
          | _ => ([], cs2)
        let (epart, cs4) :=
          match cs3 with
          | e :: t =>
              if e = 'e' ∨ e = 'E' then
                let (sgn, t2) :=
                  match t with
                  | '+' :: u => ((['+'] : List Char), u)
                  | '-' :: u => (['-'], u)
                  | _ => ([], t)
                let (ds, r) := takeDigits t2
                if ds.isEmpty then (([] : List Char), cs3) else (e :: (sgn ++ ds), r)
              else ([], cs3)
          | [] => ([], cs3)
        if fpart.isEmpty ∧ epart.isEmpty then
          let n : Int := (digitsVal ipart : Int)
          some (.jnum (if neg then -n else n), cs4)
        else
          some (.jfloat ⟨(if neg then ['-'] else []) ++ ipart ++ fpart ++ epart⟩, cs4)

mutual

/-- A recursive-descent model of `JSON.parse` on a character list (fuel
is consumed on every recursive call; `parseJson` supplies more than
enough fuel for any input). Leading whitespace is skipped; literals,
strings, numbers, arrays and objects are recognized exactly as the
JSON grammar `JSON.parse` implements admits them (non-integral numbers
are kept as literals, see `parseNumber`). Returns the value and the
unconsumed suffix. -/
def parseJsonVal : Nat → List Char → Option (JsonVal × List Char)
  | 0, _ => none
  | fuel + 1, cs0 =>
      match skipWs cs0 with
      | [] => none
      | c :: rest =>
          if c = 'n' then
            if startsWithChars ['u', 'l', 'l'] rest then
              some (.jnull, rest.drop 3)
            else none
          else if c = 't' then
            if startsWithChars ['r', 'u', 'e'] rest then
              some (.jbool true, rest.drop 3)
            else none
          else if c = 'f' then
            if startsWithChars ['a', 'l', 's', 'e'] rest then
              some (.jbool false, rest.drop 4)
            else none
          else if c = '"' then
            match parseStringBody (fuel + 1) rest with
            | some (s, rem) => some (.jstr s, rem)
            | none => none
          else if c = '-' ∨ c.isDigit then parseNumber (c :: rest)
          else if c = '[' then
            match skipWs rest with
            | ']' :: rem => some (.jarr [], rem)
            | _ =>
                match parseJsonElems fuel rest with
                | some (xs, rem) => some (.jarr xs, rem)
                | none => none
          else if c = '\x7b' then
            match skipWs rest with
            | '\x7d' :: rem => some (.jobj [], rem)
            | _ =>
                match parseJsonFields fuel rest with
                | some (fs, rem) => some (.jobj fs, rem)
                | none => none
          else none

/-- Parse one or more comma-separated array elements followed by `]`,
with whitespace allowed around each element. -/
def parseJsonElems : Nat → List Char → Option (List JsonVal × List Char)
  | 0, _ => none
  | fuel + 1, cs =>
      match parseJsonVal fuel cs with
      | none => none
      | some (x, rem) =>
          match skipWs rem with
          | ',' :: rem2 =>
              match parseJsonElems fuel rem2 with
              | some (xs, rem3) => some (x :: xs, rem3)
              | none => none
          | ']' :: rem2 => some ([x], rem2)
          | _ => none

/-- Parse one or more comma-separated `"key":value` pairs followed by
the closing brace, with whitespace allowed around keys, colons and
values. -/
def parseJsonFields : Nat → List Char → Option (List (String × JsonVal) × List Char)
  | 0, _ => none
  | fuel + 1, cs =>
      match skipWs cs with
      | '"' :: cs2 =>
          match parseStringBody fuel cs2 with
          | none => none
          | some (k, rem) =>
              match skipWs rem with
              | ':' :: rem2 =>
                  match parseJsonVal fuel rem2 with
                  | none => none
                  | some (v, rem3) =>
                      match skipWs rem3 with
                      | ',' :: rem4 =>
                          match parseJsonFields fuel rem4 with
                          | some (fs, rem5) => some ((k, v) :: fs, rem5)
                          | none => none
                      | '\x7d' :: rem4 => some ([(k, v)], rem4)
                      | _ => none
              | _ => none
      | _ => none

end

/-- `JSON.parse` on a whole string: the parse succeeds only when the
entire input, up to trailing whitespace, is consumed. The fuel bound
`2 * length + 4` exceeds the recursion depth of any input, since each
two consecutive recursive calls consume at least one character. -/
def parseJson (s : String) : Option JsonVal :=
  match parseJsonVal (2 * s.length + 4) s.data with
  | some (j, rem) => if (skipWs rem).isEmpty then some j else none
  | none => none

/-- The JavaScript value of a parsed JSON document: scalar JSON values
surface as JS primitives, arrays and objects as JS objects. -/
def jsOfJson : JsonVal → JSVal
  | .jnull => .null
  | .jbool b => .bool b
  | .jnum n => .num n
  | .jfloat lit => .floatNum lit
  | .jstr s => .str s
  | .jarr xs => .jobj (.jarr xs)
  | .jobj fs => .jobj (.jobj fs)

/-- One decoded column value: the `switch (column.type)` of
`restoreDataTypes` (src/class.ts:3029-3060). A `Date` column turns a
number into a `Date`; a `json` column `JSON.parse`s a string with
silent fallback to the raw value; a `boolean` column compares the
stored value to 1 (so a non-integral number decodes to false); every
other column type passes a stored value through. A non-integral stored
number (`fp`) stays the uninterpreted number it is in every branch but
`Date`, where the program would build a `Date` from the double — the
double's integer clipping is IEEE arithmetic outside this embedding,
so the model keeps the uninterpreted number; no claim reaches that
corner. -/
def restoreValue (t : ColType) (v : SqlParam) : JSVal :=
  match t with
  | .date =>
      match v with
      | .i n => .date n
      | .fp lit => .floatNum lit
      | .s s => .str s
  | .json =>
      match v with
      | .s s =>
          match parseJson s with
          | some j => jsOfJson j
          | none => .str s
      | .i n => .num n
      | .fp lit => .floatNum lit
  | .boolean =>
      match v with
      | .i n => .bool (n = 1)
      | .fp _ => .bool false
      | .s _ => .bool false
  | _ =>
      match v with
      | .i n => .num n
      | .fp lit => .floatNum lit
      | .s s => .str s

/-! ### Predicate trees and the WHERE compiler -/

/-- One element of a top-level `OR` array: a record of equality fields
(in object key order) plus an optional `LIKE` sub-object. When the
element carries a truthy `LIKE`, `buildWhereClause` uses only the
`LIKE` patterns and ignores the element's other fields
(src/class.ts:2904-2911). -/
structure OrCond where
  fields : List (String × JSVal)
  likePats : Option (List (String × JSVal))

/-- A structured predicate tree as accepted by the table operations.
`fields` holds the implicit-equality keys (everything that is not one
of the recognized operator keys `LIKE`, `OR`, `greaterThan`,
`lessThan`, `notEqual`, `greaterThanOrEqual`, `lessThanOrEqual`) in
object key order; each operator component is `none` when the key is
absent and `some kvs` when present (so `some []` is a present-but-empty
operator object). -/
structure WhereClause where
  fields : List (String × JSVal)
  likePats : Option (List (String × JSVal))
  gtPats : Option (List (String × JSVal))
  ltPats : Option (List (String × JSVal))
  nePats : Option (List (String × JSVal))
  gtePats : Option (List (String × JSVal))
  ltePats : Option (List (String × JSVal))
  orConds : Option (List OrCond)

/-- The empty predicate object `{}`. -/
def WhereClause.empty : WhereClause :=
  ⟨[], none, none, none, none, none, none, none⟩

/-- The predicate `{OR: []}`: an `OR` key holding an empty array and no
other keys. -/
def WhereClause.orEmpty : WhereClause :=
  ⟨[], none, none, none, none, none, none, some []⟩

/-- `Object.keys(where).length === 0`: no key at all is present. -/
def WhereClause.isEmptyObj (w : WhereClause) : Bool :=
  w.fields.isEmpty && w.likePats.isNone && w.gtPats.isNone && w.ltPats.isNone &&
    w.nePats.isNone && w.gtePats.isNone && w.ltePats.isNone && w.orConds.isNone

/-- Number of keys of an optional operator object (0 when absent). -/
def optKeyCount (o : Option (List (String × JSVal))) : Nat :=
  match o with
  | none => 0
  | some kvs => kvs.length

/-- `hasValidWhereConditions` (src/class.ts:2807-2829): an empty object
has no conditions; any direct (non-operator) key counts; otherwise a
present non-empty `LIKE`, non-empty `OR` array, or any present
non-empty comparison object counts. -/
def hasValidWhereConditions (w : WhereClause) : Bool :=
  if w.isEmptyObj then false
  else if !w.fields.isEmpty then true
  else if optKeyCount w.likePats > 0 then true
  else if (match w.orConds with | some l => !l.isEmpty | none => false) then true
  else if optKeyCount w.gtPats > 0 then true
  else if optKeyCount w.ltPats > 0 then true
  else if optKeyCount w.nePats > 0 then true
  else if optKeyCount w.gtePats > 0 then true
  else if optKeyCount w.ltePats > 0 then true
  else false

/-- SQL text of one `OR`-array element (src/class.ts:2904-2911): with a
truthy `LIKE`, the `LIKE` conditions joined by ` AND `; otherwise the
element's keys as equality conditions joined by ` AND `. -/
def orCondSql (c : OrCond) : String :=
  match c.likePats with
  | some pats => joinSep " AND " (pats.map fun kv => kv.1 ++ " LIKE ?")
  | none => joinSep " AND " (c.fields.map fun kv => kv.1 ++ " = ?")

/-- Bind parameters of one `OR`-array element
(src/class.ts:2966-2973): the `LIKE` values when a truthy `LIKE` is
present, else the element's field values, each through
`parseParameters`. -/
def orCondParams (c : OrCond) : List SqlParam :=
  match c.likePats with
  | some pats => parseParameters (pats.map Prod.snd)
  | none => parseParameters (c.fields.map Prod.snd)

/-- Values of an optional operator object, in key order ([] if absent). -/
def optValues (o : Option (List (String × JSVal))) : List JSVal :=
  match o with
  | none => []
  | some kvs => kvs.map Prod.snd

/-- Condition strings contributed by an optional operator object using
the given SQL operator text ([] if absent). -/
def optConds (o : Option (List (String × JSVal))) (op : String) : List String :=
  match o with
  | none => []
  | some kvs => kvs.map fun kv => kv.1 ++ " " ++ op ++ " ?"

/-- `buildWhereClause` (src/class.ts:2861-2925): collect condition
strings in source order — `LIKE`, `>`, `<`, `!=`, `>=`, `<=`, the
parenthesized `OR` disjunction, then the implicit-equality fields —
and join them with ` AND ` under a `WHERE` prefix; an empty object (or
no conditions at all) yields the empty string. -/
def buildWhereClause (w : WhereClause) : String :=
  if w.isEmptyObj then ""
  else
    let conditions : List String :=
      optConds w.likePats "LIKE" ++
      optConds w.gtPats ">" ++
      optConds w.ltPats "<" ++
      optConds w.nePats "!=" ++
      optConds w.gtePats ">=" ++
      optConds w.ltePats "<=" ++
      (match w.orConds with
       | some conds => ["(" ++ joinSep " OR " (conds.map orCondSql) ++ ")"]
       | none => []) ++
      w.fields.map (fun kv => kv.1 ++ " = ?")
    if conditions.isEmpty then ""
    else "WHERE " ++ joinSep " AND " conditions

/-- `extractWhereParameters` (src/class.ts:2932-2986): collect bind
values in the same source order — `LIKE`, `>`, `<`, `!=`, `>=`, `<=`,
the `OR` elements in array order, then the implicit-equality fields —
each batch through `parseParameters`. -/
def extractWhereParameters (w : WhereClause) : List SqlParam :=
  parseParameters (optValues w.likePats) ++
  parseParameters (optValues w.gtPats) ++
  parseParameters (optValues w.ltPats) ++
  parseParameters (optValues w.nePats) ++
  parseParameters (optValues w.gtePats) ++
  parseParameters (optValues w.ltePats) ++
  (match w.orConds with
   | some conds => conds.flatMap orCondParams
   | none => []) ++
  parseParameters (w.fields.map Prod.snd)

/-! ### Table operations, modelled up to SQL submission -/

/-- Errors thrown by the validation layer before any SQL executes.
`missingPredicate` covers both "requires a WHERE clause" and "requires
a non-empty WHERE clause"; `emptyUpdate` is "Update values cannot be
empty"; `invalidArgument` covers the negative limit/skip checks. -/
inductive DbError where
  | missingPredicate
  | emptyUpdate
  | invalidArgument
deriving DecidableEq, Repr

/-- Outcome of a table operation, traced up to its first SQL
submission: `noSql` is a short-circuit return that touches the engine
not at all, `runsSql` records the first compiled query text and its
parameter vector handed to the engine, and `err` is a validation error
thrown before any SQL. -/
inductive OpResult (α : Type) where
  | noSql : α → OpResult α
  | runsSql : String → List SqlParam → OpResult α
  | err : DbError → OpResult α
deriving DecidableEq, Repr

/-- `buildSelectQuery` (src/class.ts:2832-2859): `SELECT *` or the
listed columns, `FROM` the table, then the WHERE fragment and the
literal LIMIT/OFFSET suffixes. `selectCols` carries the keys of the
`select` object whose flag is truthy, in key order. -/
def buildSelectQuery (tbl : String) (selectCols : Option (List String))
    (w : Option WhereClause) (limit skip : Option Int) : String :=
  (match selectCols with
   | none => "SELECT *"
   | some cols => "SELECT " ++ joinSep ", " cols) ++
  " FROM " ++ tbl ++
  (match w with
   | some wc => " " ++ buildWhereClause wc
   | none => "") ++
  (match limit with
   | some l => if l ≠ 0 then " LIMIT " ++ toString l else ""
   | none => "") ++
  (match skip with
   | some k => if k ≠ 0 then " OFFSET " ++ toString k else ""
   | none => "")

/-- `validateSelectOptions` (src/class.ts:2770-2777): a truthy negative
`limit` or `skip` is rejected. -/
def validateSelectOptions (limit skip : Option Int) : Except DbError Unit :=
  match limit with
  | some l => if l ≠ 0 ∧ l < 0 then .error .invalidArgument else
      match skip with
      | some k => if k ≠ 0 ∧ k < 0 then .error .invalidArgument else .ok ()
      | none => .ok ()
  | none =>
      match skip with
      | some k => if k ≠ 0 ∧ k < 0 then .error .invalidArgument else .ok ()
      | none => .ok ()

/-- Does the predicate carry an `OR` key holding an empty array? This
is the short-circuit test repeated in `select`, `count` and `delete`
(src/class.ts:1934, 2328, 2269). -/
def WhereClause.isOrEmptyShortCircuit (w : WhereClause) : Bool :=
  match w.orConds with
  | some l => l.isEmpty
  | none => false

/-- `Table.select` (src/class.ts:1928-1950) up to SQL submission:
validate limit/skip, short-circuit `{OR: []}` to `[]`, else run the
compiled SELECT. -/
def selectOp (tbl : String) (selectCols : Option (List String))
    (w : Option WhereClause) (limit skip : Option Int) : OpResult (List JSVal) :=
  match validateSelectOptions limit skip with
  | .error e => .err e
  | .ok _ =>
      match w with
      | some wc =>
          if wc.isOrEmptyShortCircuit then .noSql []
          else .runsSql (buildSelectQuery tbl selectCols w limit skip)
            (extractWhereParameters wc)
      | none => .runsSql (buildSelectQuery tbl selectCols w limit skip) []

/-- `Table.count` (src/class.ts:2326-2351) up to SQL submission:
short-circuit `{OR: []}` to 0, else run the compiled COUNT. -/
def countOp (tbl : String) (w : Option WhereClause) : OpResult Int :=
  match w with
  | some wc =>
      if wc.isOrEmptyShortCircuit then .noSql 0
      else .runsSql ("SELECT COUNT(*) as count FROM " ++ tbl ++ " " ++ buildWhereClause wc)
        (extractWhereParameters wc)
  | none => .runsSql ("SELECT COUNT(*) as count FROM " ++ tbl) []

/-- `validateUpdateOptions` (src/class.ts:2779-2793): empty `values`
first, then a missing or meaningless `where`. -/
def validateUpdateOptions (values : List (String × JSVal)) (w : Option WhereClause) :
    Except DbError Unit :=
  if values.isEmpty then .error .emptyUpdate
  else
    match w with
    | none => .error .missingPredicate
    | some wc =>
        if hasValidWhereConditions wc then .ok () else .error .missingPredicate

/-- `validateDeleteOptions` (src/class.ts:2795-2805): a missing or
meaningless `where` is rejected. -/
def validateDeleteOptions (w : Option WhereClause) : Except DbError Unit :=
  match w with
  | none => .error .missingPredicate
  | some wc =>
      if hasValidWhereConditions wc then .ok () else .error .missingPredicate

/-- `Table.update` (src/class.ts:2197-2215) up to SQL submission:
validate, then run `UPDATE … SET … WHERE …` with the SET parameters
followed by the WHERE parameters. -/
def updateOp (tbl : String) (values : List (String × JSVal)) (w : Option WhereClause) :
    OpResult Unit :=
  match validateUpdateOptions values w with
  | .error e => .err e
  | .ok _ =>
      let wc := w.getD WhereClause.empty
      .runsSql
        ("UPDATE " ++ tbl ++ " SET " ++
          joinSep ", " (values.map fun kv => kv.1 ++ " = ?") ++
          " " ++ buildWhereClause wc)
        (parseParameters (values.map Prod.snd) ++ extractWhereParameters wc)

/-- `Table.delete` (src/class.ts:2265-2284) up to SQL submission:
validate first (so a predicate whose only key is `OR: []` is rejected
as meaningless), then short-circuit the `OR: []` check, then run the
compiled DELETE. -/
def deleteOp (tbl : String) (w : Option WhereClause) : OpResult Unit :=
  match validateDeleteOptions w with
  | .error e => .err e
  | .ok _ =>
      let wc := w.getD WhereClause.empty
      if wc.isOrEmptyShortCircuit then .noSql ()
      else .runsSql ("DELETE FROM " ++ tbl ++ " " ++ buildWhereClause wc)
        (extractWhereParameters wc)

/-- `Table.paginate` (src/class.ts:2704-2767) up to its first SQL
submission: there is no `{OR: []}` short-circuit — the method first
runs the COUNT query with the compiled WHERE fragment. -/
def paginateOp (tbl : String) (w : Option WhereClause) : OpResult Unit :=
  match w with
  | some wc =>
      .runsSql ("SELECT COUNT(*) as count FROM " ++ tbl ++ " " ++ buildWhereClause wc)
        (extractWhereParameters wc)
  | none => .runsSql ("SELECT COUNT(*) as count FROM " ++ tbl) []

/-! ### Clause/parameter alignment structure for the WHERE compiler -/

/-- Condition/parameter pairs contributed by one optional comparison or
`LIKE` object: one clause and one bound value per key, in key order. -/
def optClausePairs (o : Option (List (String × JSVal))) (op : String) :
    List (String × List SqlParam) :=
  match o with
  | none => []
  | some kvs => kvs.map fun kv => (kv.1 ++ " " ++ op ++ " ?", [encodeParam kv.2])

/-- The aligned emission sequence of the WHERE compiler: every clause
paired with the parameters its placeholders bind, in the order the
source emits them — `LIKE`, `>`, `<`, `!=`, `>=`, `<=`, the single
parenthesized `OR` clause, then the implicit-equality fields. -/
def emittedClauses (w : WhereClause) : List (String × List SqlParam) :=
  optClausePairs w.likePats "LIKE" ++
  optClausePairs w.gtPats ">" ++
  optClausePairs w.ltPats "<" ++
  optClausePairs w.nePats "!=" ++
  optClausePairs w.gtePats ">=" ++
  optClausePairs w.ltePats "<=" ++
  (match w.orConds with
   | some conds =>
       [("(" ++ joinSep " OR " (conds.map orCondSql) ++ ")", conds.flatMap orCondParams)]
   | none => []) ++
  w.fields.map (fun kv => (kv.1 ++ " = ?", [encodeParam kv.2]))

/-- Render an emission sequence the way `buildWhereClause` does: the
clause texts joined with ` AND ` under a `WHERE` prefix, or the empty
string when there is no clause. -/
def renderWhere (l : List (String × List SqlParam)) : String :=
  if l.isEmpty then "" else "WHERE " ++ joinSep " AND " (l.map Prod.fst)

/-- Number of `?` placeholders in a SQL fragment. -/
def countQ (s : String) : Nat :=
  s.data.count '?'

/-- A column/field name is clean when it contains no `?` character (so
every `?` of a compiled fragment is a placeholder). -/
def keyClean (k : String) : Bool :=
  !k.data.contains '?'

/-- All keys of an optional operator object are clean. -/
def optKeysClean (o : Option (List (String × JSVal))) : Bool :=
  match o with
  | none => true
  | some kvs => kvs.all fun kv => keyClean kv.1

/-- All keys appearing anywhere in a predicate tree are clean. -/
def WhereClause.keysClean (w : WhereClause) : Bool :=
  (w.fields.all fun kv => keyClean kv.1) &&
  optKeysClean w.likePats && optKeysClean w.gtPats && optKeysClean w.ltPats &&
  optKeysClean w.nePats && optKeysClean w.gtePats && optKeysClean w.ltePats &&
  (match w.orConds with
   | none => true
   | some conds => conds.all fun c =>
       (c.fields.all fun kv => keyClean kv.1) && optKeysClean c.likePats)

/-! ### Schema validation and DDL constraints -/

/-- A column descriptor as consumed by `validateTableSchema` and
`buildColumnConstraints` (src/class.ts): name, type tag, and the
`primary`, `unique`, `nullable`, `autoIncrement` flags. -/
structure Column where
  name : String
  type : ColType
  primary : Bool := false
  unique : Bool := false
  nullable : Bool := false
  autoIncrement : Bool := false

/-- A table descriptor: a name and its columns. -/
structure TableSchema where
  name : String
  columns : List Column

/-- The reasons `validateTableSchema` throws. -/
inductive SchemaError where
  | emptyName
  | noColumns
  | noPrimaryKey
  | duplicateColumns
deriving DecidableEq, Repr

/-- JavaScript's `String.prototype.trim`: drop leading and trailing
whitespace. -/
def jsTrim (s : String) : String :=
  ⟨((s.data.dropWhile Char.isWhitespace).reverse.dropWhile Char.isWhitespace).reverse⟩

/-- `validateTableSchema` (src/class.ts:753-773), in source order:
empty/whitespace name, then no columns, then no primary column, then
duplicate column names (`columnNames.length !== new Set(...).size`).
There is no check on `autoIncrement`. -/
def validateTableSchema (schema : TableSchema) : Option SchemaError :=
  if jsTrim schema.name = "" then some .emptyName
  else if schema.columns.isEmpty then some .noColumns
  else if !(schema.columns.any fun c => c.primary) then some .noPrimaryKey
  else if (schema.columns.map (fun c => c.name)).dedup.length ≠
      (schema.columns.map (fun c => c.name)).length then some .duplicateColumns
  else none

/-- The constraint keywords pushed by `buildColumnConstraints`
(src/class.ts:816-841), in source order. `AUTOINCREMENT` is pushed only
when the column type is `number` and the flag is set; on any other type
the flag is silently ignored. (The `DEFAULT` clause is omitted here: no
claim concerns default literals.) -/
def buildConstraintList (c : Column) : List String :=
  (if c.primary then ["PRIMARY KEY"] else []) ++
  (if c.type = ColType.number ∧ c.autoIncrement then ["AUTOINCREMENT"] else []) ++
  (if ¬c.nullable ∧ ¬c.primary then ["NOT NULL"] else []) ++
  (if c.unique ∧ ¬c.primary then ["UNIQUE"] else [])

/-- The constraint suffix of a column definition: the keywords joined
by spaces behind a leading space, or empty. -/
def buildColumnConstraints (c : Column) : String :=
  if (buildConstraintList c).isEmpty then ""
  else " " ++ joinSep " " (buildConstraintList c)

/-! ### Insert batching -/

/-- A JS record (row object): fields in key order. -/
abbrev JsRecord := List (String × JSVal)

/-- JavaScript property access `record[column]`: the first binding of
the key, or `undefined` when the key is absent. -/
def jsGet (r : JsRecord) (k : String) : JSVal :=
  match r.find? (fun kv => kv.1 = k) with
  | some kv => kv.2
  | none => .undefVal

/-- `formatRecordValuesForInsert` (src/class.ts:3021-3027): for each
column of the insert column list, encode `record[column]` through
`parseParameters`. -/
def formatRecordValuesForInsert (r : JsRecord) (columns : List String) : List SqlParam :=
  columns.map fun c => encodeParam (jsGet r c)

/-- The column list used by `insert`, `bulkInsert` and `upsert`
(src/class.ts:1994-1995, 2055-2056, 2120-2121): `Object.keys` of the
first record only. -/
def insertColumns (records : List JsRecord) : List String :=
  (records.headD []).map Prod.fst

/-- The SQL text and per-record bindings that `insert`
(src/class.ts:1989-2012) hands to the engine: the column list comes
from the first record and every record is bound against it. -/
def insertPlan (tbl : String) (records : List JsRecord) :
    String × List (List SqlParam) :=
  let columns := insertColumns records
  ("INSERT INTO " ++ tbl ++ " (" ++ joinSep ", " columns ++ ") VALUES (" ++
      joinSep ", " (columns.map fun _ => "?") ++ ")",
    records.map fun r => formatRecordValuesForInsert r columns)

/-- `chunk` (src/class.ts:3100-3106): split a list into consecutive
slices of the given size (the last one may be shorter). A size of zero
would not terminate in the source; it yields no batches here. -/
def chunk {α : Type} : List α → Nat → List (List α)
  | [], _ => []
  | x :: xs, size =>
      if h : size = 0 then []
      else (x :: xs).take size :: chunk ((x :: xs).drop size) size
termination_by l _ => l.length
decreasing_by
  simp only [List.length_drop, List.length_cons]
  have : 0 < size := Nat.pos_of_ne_zero h
  omega

/-- The bindings `bulkInsert` (src/class.ts:2046-2075) hands to its
prepared statement: the records chunked into batches, each record of
each batch bound against the first record's column list. -/
def bulkInsertBindings (records : List JsRecord) (batchSize : Nat) :
    List (List (List SqlParam)) :=
  (chunk records batchSize).map fun batch =>
    batch.map fun r => formatRecordValuesForInsert r (insertColumns records)

/-- The SQL text and per-record bindings of `upsert`
(src/class.ts:2111-2148): the inserted column list again comes from the
first record, the conflict-update list is either the given
`updateColumns` or all non-conflict columns, and every record is bound
against the first record's columns. -/
def upsertPlan (tbl : String) (records : List JsRecord)
    (conflictColumns : List String) (updateColumns : Option (List String)) :
    String × List (List SqlParam) :=
  let columns := insertColumns records
  let updateCols :=
    match updateColumns with
    | some cols => joinSep ", " (cols.map fun c => c ++ " = excluded." ++ c)
    | none => joinSep ", "
        ((columns.filter fun c => !conflictColumns.contains c).map
          fun c => c ++ " = excluded." ++ c)
  ("INSERT INTO " ++ tbl ++ " (" ++ joinSep ", " columns ++ ") VALUES (" ++
      joinSep ", " (columns.map fun _ => "?") ++ ") ON CONFLICT(" ++
      joinSep ", " conflictColumns ++ ") DO UPDATE SET " ++ updateCols,
    records.map fun r => formatRecordValuesForInsert r columns)

/-! ### JSON import -/

/-- Conflict-resolution strategies of `importFromJson`. -/
inductive ConflictRes where
  | replace | ignore | fail
deriving DecidableEq, Repr

/-- The statistics object `importFromJson` accumulates and returns. -/
structure ImportStats where
  imported : Nat
  skipped : Nat
  errors : List String
deriving DecidableEq, Repr

/-- The batch loop of `importFromJson` (src/class.ts:3396-3420).
`runBatch` abstracts the engine effect of the inner `upsert`/`insert`
call on one batch: `.ok` on success, `.error msg` when the engine
throws. Under `fail` the inner catch rethrows, which aborts the loop
carrying the batch error (`Sum.inr`); otherwise the error message is
accumulated and the loop continues. -/
def importBatches (conflict : ConflictRes)
    (runBatch : List JsRecord → Except String Unit) :
    List (List JsRecord) → ImportStats → ImportStats × Option String
  | [], stats => (stats, none)
  | batch :: rest, stats =>
      match runBatch batch with
      | .ok _ =>
          importBatches conflict runBatch rest
            { stats with imported := stats.imported + batch.length }
      | .error msg =>
          if conflict = ConflictRes.fail then (stats, some msg)
          else
            importBatches conflict runBatch rest
              { stats with
                  skipped := stats.skipped + batch.length,
                  errors := stats.errors ++ ["Batch error: " ++ msg] }

/-- `importFromJson` (src/class.ts:3372-3428), given already-parsed
batches: run the batch loop; a batch error that escapes under `fail`
is caught by the method's outer `try/catch`, which appends
`"Import failed: …"` to the statistics and returns them normally —
the error does not propagate to the caller. -/
def importFromJson (conflict : ConflictRes)
    (runBatch : List JsRecord → Except String Unit)
    (batches : List (List JsRecord)) : ImportStats :=
  match importBatches conflict runBatch batches ⟨0, 0, []⟩ with
  | (stats, none) => stats
  | (stats, some msg) =>
      { stats with errors := stats.errors ++ ["Import failed: " ++ msg] }

/-! ### The connection pool (`AdvancedConnectionPool`, src/class.ts:67-472) -/

/-- A pooled connection's metadata (`PooledConnection`,
src/class.ts:37-45); the engine handle and per-connection counters are
irrelevant to the statistics invariants and omitted. Connection ids
(strings `conn_<time>_<uuid>` in the source) are modelled as naturals. -/
structure PConn where
  id : Nat
  createdAt : Nat
  lastUsed : Nat
  inUse : Bool
deriving DecidableEq, Repr

/-- The statistics fields involved in the conservation equations
(`PoolStats`, src/class.ts:50-62). -/
structure PStats where
  totalConnections : Nat
  activeConnections : Nat
  idleConnections : Nat
  waitingClients : Nat
  totalCreated : Nat
  totalDestroyed : Nat
  totalAcquired : Nat
  totalReleased : Nat
deriving DecidableEq, Repr

/-- Pool state: the connection map (as a list of entries), the FIFO
`availableConnections` id list, the FIFO waiting queue (waiter ids),
and the statistics record. -/
structure PoolSt where
  connections : List PConn
  available : List Nat
  waiting : List Nat
  stats : PStats
deriving DecidableEq, Repr

/-- The pool state right after construction: empty collections, all
statistics zero (src/class.ts:70-93). -/
def PoolSt.init : PoolSt :=
  ⟨[], [], [], ⟨0, 0, 0, 0, 0, 0, 0, 0⟩⟩

/-- The pool configuration fields the modelled operations read. -/
structure PoolCfg where
  maxConnections : Nat
  minConnections : Nat
  idleTimeout : Nat
  maxConnectionAge : Nat

/-- `updateStats` (src/class.ts:401-414): recompute `totalConnections`,
`activeConnections`, `idleConnections` and `waitingClients` from the
live collections (averages are not modelled). -/
def updateStats (s : PoolSt) : PoolSt :=
  { s with stats :=
      { s.stats with
          totalConnections := s.connections.length,
          activeConnections := (s.connections.filter fun c => c.inUse).length,
          idleConnections :=
            s.connections.length - (s.connections.filter fun c => c.inUse).length,
          waitingClients := s.waiting.length } }

/-- Mark one connection in-use (or not) and stamp `lastUsed`. -/
def setConnUse (id : Nat) (use : Bool) (now : Nat) (s : PoolSt) : PoolSt :=
  { s with connections := s.connections.map fun c =>
      if c.id = id then { c with inUse := use, lastUsed := now } else c }

/-- `createConnection` (src/class.ts:156-188): insert the new
connection (not in use), append its id to `availableConnections`,
increment `totalCreated`, and `updateStats`. -/
def createConnection (id now : Nat) (s : PoolSt) : PoolSt :=
  updateStats
    { s with
        connections := s.connections ++ [⟨id, now, now, false⟩],
        available := s.available ++ [id],
        stats := { s.stats with totalCreated := s.stats.totalCreated + 1 } }

/-- `destroyConnection` (src/class.ts:279-303): when the id is present,
remove its entry, erase the id from `availableConnections`, increment
`totalDestroyed`, and `updateStats`; otherwise do nothing. -/
def destroyConnection (id : Nat) (s : PoolSt) : PoolSt :=
  if s.connections.any fun c => c.id = id then
    updateStats
      { s with
          connections := s.connections.eraseP fun c => c.id = id,
          available := s.available.erase id,
          stats := { s.stats with totalDestroyed := s.stats.totalDestroyed + 1 } }
  else s

/-- `acquire` (src/class.ts:190-247): pop the head of
`availableConnections` and mark it in use; else, under the connection
limit, create a fresh connection (`newId`), mark it in use and pop it
back off `availableConnections`; else enqueue the waiter. Each path
ends in `updateStats`. -/
def acquire (cfg : PoolCfg) (newId wid now : Nat) (s : PoolSt) : PoolSt :=
  match s.available with
  | connId :: rest =>
      let s1 := setConnUse connId true now { s with available := rest }
      updateStats
        { s1 with stats := { s1.stats with totalAcquired := s1.stats.totalAcquired + 1 } }
  | [] =>
      if s.connections.length < cfg.maxConnections then
        let s1 := createConnection newId now s
        let s2 := setConnUse newId true now { s1 with available := s1.available.dropLast }
        updateStats
          { s2 with stats := { s2.stats with totalAcquired := s2.stats.totalAcquired + 1 } }
      else
        updateStats { s with waiting := s.waiting ++ [wid] }

/-- The acquire-timeout callback (src/class.ts:238-245): remove the
waiter from the queue (first occurrence) and `updateStats`. -/
def timeoutWaiter (wid : Nat) (s : PoolSt) : PoolSt :=
  updateStats { s with waiting := s.waiting.erase wid }

/-- `release` (src/class.ts:249-277): unknown ids are ignored; the
connection is marked idle and `totalReleased` bumped; an over-age
connection is destroyed; else the head waiter (if any) is handed the
connection (re-marked in use, counted as an acquire); else the id is
pushed onto `availableConnections`. -/
def release (cfg : PoolCfg) (id now : Nat) (s : PoolSt) : PoolSt :=
  match s.connections.find? fun c => c.id = id with
  | none => s
  | some conn =>
      let s1 := setConnUse id false now s
      let s1 := { s1 with stats := { s1.stats with
                    totalReleased := s1.stats.totalReleased + 1 } }
      if now - conn.createdAt > cfg.maxConnectionAge then
        destroyConnection id s1
      else
        match s1.waiting with
        | _ :: restW =>
            let s2 := setConnUse id true now { s1 with waiting := restW }
            updateStats
              { s2 with stats := { s2.stats with
                  totalAcquired := s2.stats.totalAcquired + 1 } }
        | [] =>
            updateStats { s1 with available := s1.available ++ [id] }

/-- `cleanupIdleConnections` (src/class.ts:305-318): collect the ids of
idle-expired connections (the size guard reads the pre-loop size), then
destroy each. -/
def cleanupIdleConnections (cfg : PoolCfg) (now : Nat) (s : PoolSt) : PoolSt :=
  let doomed := (s.connections.filter fun c =>
      !c.inUse && decide (now - c.lastUsed > cfg.idleTimeout) &&
        decide (s.connections.length > cfg.minConnections)).map fun c => c.id
  doomed.foldl (fun st i => destroyConnection i st) s

/-- `close` (src/class.ts:427-464): reject and clear the waiters, close
and clear the connections, clear `availableConnections`. The statistics
record is not touched: `totalDestroyed` is not incremented and
`updateStats` is not called. -/
def closePool (s : PoolSt) : PoolSt :=
  { s with connections := [], available := [], waiting := [] }

/-- The conservation equations of the claim, read off the statistics
and the live collections. -/
def PoolInv (s : PoolSt) : Prop :=
  s.stats.totalCreated = s.stats.totalDestroyed + s.connections.length ∧
  s.stats.totalConnections = s.connections.length ∧
  s.stats.activeConnections + s.stats.idleConnections = s.stats.totalConnections ∧
  s.stats.waitingClients = s.waiting.length

/-! ### The waiter queue discipline (for FIFO fairness) -/

/-- The waiter queue and the order in which waiters get resolved.
`queue` is `waitingQueue` (waiter ids); `resolved` records the order in
which `release` handed out connections. -/
structure QState where
  queue : List Nat
  resolved : List Nat

/-- Events touching the waiter queue: `enq w` is the enqueue in
`acquire` (src/class.ts:230, a push to the back); `rel` is a `release`
event, which serves `waitingQueue.shift()` — the head — when the queue
is non-empty (src/class.ts:265-271) and serves nobody otherwise;
`tout w` is w's acquire timeout, which removes w from the queue
(src/class.ts:239-241, `findIndex` + `splice`). -/
inductive PoolEv where
  | enq : Nat → PoolEv
  | rel : PoolEv
  | tout : Nat → PoolEv
deriving DecidableEq, Repr

/-- One step of the waiter-queue discipline. -/
def stepQ (s : QState) : PoolEv → QState
  | .enq w => { s with queue := s.queue ++ [w] }
  | .rel =>
      match s.queue with
      | [] => s
      | w :: rest => ⟨rest, s.resolved ++ [w]⟩
  | .tout w => { s with queue := s.queue.erase w }

/-- Run a sequence of waiter-queue events. -/
def runQ (s : QState) : List PoolEv → QState
  | [] => s
  | e :: es => runQ (stepQ s e) es

/-- `x` occurs strictly before `y` in the list. -/
def beforeIn (x y : Nat) (l : List Nat) : Prop :=
  ∃ a b c, l = a ++ (x :: (b ++ (y :: c)))

/-- The inductive invariant behind FIFO fairness, for a fixed pair of
waiters `w1`, `w2`: if `w2` is resolved then `w1` was resolved before
it; if `w2` still waits, it is unresolved and either `w1` is already
resolved or still ahead of it in the queue; and each of the two waiters
occurs at most once across the queue and the resolution record. -/
def FifoInv (w1 w2 : Nat) (s : QState) : Prop :=
  (w2 ∈ s.resolved → beforeIn w1 w2 s.resolved) ∧
  (w2 ∈ s.queue → w2 ∉ s.resolved ∧ (w1 ∈ s.resolved ∨ beforeIn w1 w2 s.queue)) ∧
  (s.queue ++ s.resolved).count w2 ≤ 1 ∧
  (s.queue ++ s.resolved).count w1 ≤ 1

/-! ### Spec-side comparison definitions -/

/-- The storage-parameter domain the spec describes, which in contrast
to `SqlParam` includes an SQL NULL binding. -/
inductive SpecParam where
  | i : Int → SpecParam
  | fp : String → SpecParam
  | s : String → SpecParam
  | sqlNull : SpecParam
deriving DecidableEq, Repr

/-- View an actual bind parameter in the spec's domain. -/
def toSpecParam : SqlParam → SpecParam
  | .i n => .i n
  | .fp lit => .fp lit
  | .s t => .s t

/-- Modelled from the claim's words (C4): numbers and strings pass
through, booleans map to 1/0, dates to epoch milliseconds,
objects/arrays to their stringified text, and null/undefined to NULL. -/
def specEncodeParam : JSVal → SpecParam
  | .num n => .i n
  | .floatNum lit => .fp lit
  | .str t => .s t
  | .bool b => .i (if b then 1 else 0)
  | .date ms => .i ms
  | .jobj j => .s (stringifyJson j)
  | .null => .sqlNull
  | .undefVal => .sqlNull

/-- The amended encoding map: as the claim says except that null and
undefined map to the empty string, as the code does. -/
def specEncodeParamAmended : JSVal → SpecParam
  | .num n => .i n
  | .floatNum lit => .fp lit
  | .str t => .s t
  | .bool b => .i (if b then 1 else 0)
  | .date ms => .i ms
  | .jobj j => .s (stringifyJson j)
  | .null => .s ""
  | .undefVal => .s ""

/-- Modelled from the claim's words (C3): the WHERE fragment with the
clauses AND-combined in the order implicit equality first, then LIKE,
then the ordered comparisons, then OR. -/
def buildWhereClauseSpecOrder (w : WhereClause) : String :=
  if w.isEmptyObj then ""
  else
    let conditions : List String :=
      w.fields.map (fun kv => kv.1 ++ " = ?") ++
      optConds w.likePats "LIKE" ++
      optConds w.gtPats ">" ++
      optConds w.ltPats "<" ++
      optConds w.nePats "!=" ++
      optConds w.gtePats ">=" ++
      optConds w.ltePats "<=" ++
      (match w.orConds with
       | some conds => ["(" ++ joinSep " OR " (conds.map orCondSql) ++ ")"]
       | none => [])
    if conditions.isEmpty then ""
    else "WHERE " ++ joinSep " AND " conditions

/-- A predicate with no meaningful condition, in the claim's words
(C2): the object is empty, or all its recognized operator objects are
empty and it has no direct field. -/
def noMeaningfulCondition (w : WhereClause) : Prop :=
  w.fields = [] ∧
  optKeyCount w.likePats = 0 ∧ optKeyCount w.gtPats = 0 ∧
  optKeyCount w.ltPats = 0 ∧ optKeyCount w.nePats = 0 ∧
  optKeyCount w.gtePats = 0 ∧ optKeyCount w.ltePats = 0 ∧
  (match w.orConds with
   | some l => l = []
   | none => True)

/-! ## Claims -/

/-- **C1, counterexample.** On the predicate `{OR: []}` the claim fails
for two of the four listed operations: `delete` raises the
missing-predicate error instead of short-circuiting to a no-op, and
`paginate` does not short-circuit at all — it submits its COUNT query
(with the degenerate fragment `WHERE ()`) to the engine. -/
theorem C1_counterexample :
    deleteOp "t" (some WhereClause.orEmpty) = OpResult.err DbError.missingPredicate ∧
    paginateOp "t" (some WhereClause.orEmpty) =
      OpResult.runsSql "SELECT COUNT(*) as count FROM t WHERE ()" [] :=
  ⟨rfl, rfl⟩

/-- **C1, amended.** On the predicate `{OR: []}`: `select` returns `[]`
and `count` returns 0 without executing SQL; `delete` raises
MissingPredicate before any SQL (so no row is removed, but by an error,
not a short-circuit); and `paginate` does not short-circuit — it
executes its COUNT SQL with the compiled `WHERE ()` fragment. -/
theorem C1_amended (tbl : String) :
    selectOp tbl none (some WhereClause.orEmpty) none none = OpResult.noSql [] ∧
    countOp tbl (some WhereClause.orEmpty) = OpResult.noSql 0 ∧
    deleteOp tbl (some WhereClause.orEmpty) = OpResult.err DbError.missingPredicate ∧
    paginateOp tbl (some WhereClause.orEmpty) =
      OpResult.runsSql ("SELECT COUNT(*) as count FROM " ++ tbl ++ " " ++ "WHERE ()") [] :=
  ⟨rfl, rfl, rfl, rfl⟩

/-- **C4, counterexample.** The encoding of `null` is the empty string,
not SQL NULL: `parseParameters` cannot produce a NULL binding at all
(its return type is `(string | number)[]`). -/
theorem C4_counterexample :
    toSpecParam (encodeParam JSVal.null) = SpecParam.s "" ∧
    toSpecParam (encodeParam JSVal.undefVal) = SpecParam.s "" ∧
    specEncodeParam JSVal.null = SpecParam.sqlNull ∧
    toSpecParam (encodeParam JSVal.null) ≠ specEncodeParam JSVal.null := by
  refine ⟨rfl, rfl, rfl, ?_⟩
  decide

/-- **C4, amended.** The row-codec encoding maps numbers and strings
through unchanged, booleans to 1/0, dates to their millisecond epoch,
objects and arrays to their `JSON.stringify` text, and null or
undefined to the empty string `""` (not SQL NULL). -/
theorem C4_amended (v : JSVal) :
    toSpecParam (encodeParam v) = specEncodeParamAmended v := by
  cases v <;> rfl

/-- **C5, counterexample.** Decoding does not invert encoding on every
supported json-column value: a boolean stored through a json column
comes back as the number 1 (it is encoded to the integer 1, which the
json decode branch passes through), and a string whose text parses as
JSON comes back as the parsed value — `"123"` comes back as the number
123, `"1.5"` as the (non-integral) number 1.5, and `" 1"` (JSON.parse
skips the whitespace) as the number 1. -/
theorem C5_counterexample :
    restoreValue ColType.json (encodeParam (JSVal.bool true)) = JSVal.num 1 ∧
    JSVal.num 1 ≠ JSVal.bool true ∧
    restoreValue ColType.json (encodeParam (JSVal.str "123")) = JSVal.num 123 ∧
    JSVal.num 123 ≠ JSVal.str "123" ∧
    restoreValue ColType.json (encodeParam (JSVal.str "1.5")) = JSVal.floatNum "1.5" ∧
    JSVal.floatNum "1.5" ≠ JSVal.str "1.5" ∧
    restoreValue ColType.json (encodeParam (JSVal.str " 1")) = JSVal.num 1 ∧
    JSVal.num 1 ≠ JSVal.str " 1" :=
  ⟨rfl, fun h => JSVal.noConfusion h, rfl, fun h => JSVal.noConfusion h,
   rfl, fun h => JSVal.noConfusion h, rfl, fun h => JSVal.noConfusion h⟩

/-- **C5, amended.** Decoding inverts encoding for numbers, strings,
booleans and dates at their own column types; for json columns it
inverts encoding on numbers, on strings that do not parse as JSON, and
on arrays/objects whose stringified text re-parses to themselves — but
not on booleans, nulls, or strings that parse as JSON. -/
theorem C5_amended :
    (∀ n, restoreValue ColType.number (encodeParam (JSVal.num n)) = JSVal.num n) ∧
    (∀ n, restoreValue ColType.float (encodeParam (JSVal.num n)) = JSVal.num n) ∧
    (∀ s, restoreValue ColType.string (encodeParam (JSVal.str s)) = JSVal.str s) ∧
    (∀ b, restoreValue ColType.boolean (encodeParam (JSVal.bool b)) = JSVal.bool b) ∧
    (∀ ms, restoreValue ColType.date (encodeParam (JSVal.date ms)) = JSVal.date ms) ∧
    (∀ n, restoreValue ColType.json (encodeParam (JSVal.num n)) = JSVal.num n) ∧
    (∀ s, parseJson s = none →
      restoreValue ColType.json (encodeParam (JSVal.str s)) = JSVal.str s) ∧
    (∀ xs, parseJson (stringifyJson (JsonVal.jarr xs)) = some (JsonVal.jarr xs) →
      restoreValue ColType.json (encodeParam (JSVal.jobj (JsonVal.jarr xs))) =
        JSVal.jobj (JsonVal.jarr xs)) ∧
    (∀ fs, parseJson (stringifyJson (JsonVal.jobj fs)) = some (JsonVal.jobj fs) →
      restoreValue ColType.json (encodeParam (JSVal.jobj (JsonVal.jobj fs))) =
        JSVal.jobj (JsonVal.jobj fs)) := by
  refine ⟨fun n => rfl, fun n => rfl, fun s => rfl, ?_, fun ms => rfl, fun n => rfl,
    ?_, ?_, ?_⟩
  · intro b
    cases b <;> rfl
  · intro s h
    simp only [encodeParam, restoreValue, h]
  · intro xs h
    simp only [encodeParam, restoreValue, h, jsOfJson]
  · intro fs h
    simp only [encodeParam, restoreValue, h, jsOfJson]

/-- **C5, witness** for the hypotheses of the amended round-trip: a
string that does not parse, a small array, and a small object, each
checked concretely. -/
theorem C5_amended_witness :
    (parseJson "abc" = none ∧
      restoreValue ColType.json (encodeParam (JSVal.str "abc")) = JSVal.str "abc") ∧
    (parseJson (stringifyJson (JsonVal.jarr [JsonVal.jnum 1])) =
        some (JsonVal.jarr [JsonVal.jnum 1]) ∧
      restoreValue ColType.json (encodeParam (JSVal.jobj (JsonVal.jarr [JsonVal.jnum 1]))) =
        JSVal.jobj (JsonVal.jarr [JsonVal.jnum 1])) ∧
    (parseJson (stringifyJson (JsonVal.jobj [("a", JsonVal.jnum 1)])) =
        some (JsonVal.jobj [("a", JsonVal.jnum 1)]) ∧
      restoreValue ColType.json
          (encodeParam (JSVal.jobj (JsonVal.jobj [("a", JsonVal.jnum 1)]))) =
        JSVal.jobj (JsonVal.jobj [("a", JsonVal.jnum 1)])) :=
  ⟨⟨rfl, C5_amended.2.2.2.2.2.2.1 "abc" rfl⟩,
   ⟨rfl, C5_amended.2.2.2.2.2.2.2.1 [JsonVal.jnum 1] rfl⟩,
   ⟨rfl, C5_amended.2.2.2.2.2.2.2.2 [("a", JsonVal.jnum 1)] rfl⟩⟩

/-- A list has no duplicates exactly when deduplication keeps its
length (the code compares `columnNames.length` to the `Set` size). -/
theorem dedup_length_eq_iff {α : Type} [DecidableEq α] (l : List α) :
    l.dedup.length = l.length ↔ l.Nodup := by
  constructor
  · intro h
    exact List.dedup_eq_self.mp ((l.dedup_sublist).eq_of_length h)
  · intro h
    rw [List.dedup_eq_self.mpr h]

/-- **C6, counterexample.** A table whose only column is a `string`
column flagged `autoIncrement` passes validation — no InvalidSchema is
raised — and the emitted constraint list for that column silently omits
`AUTOINCREMENT`. -/
theorem C6_counterexample :
    validateTableSchema ⟨"t", [⟨"id", ColType.string, true, false, false, true⟩]⟩ =
      none ∧
    buildConstraintList ⟨"id", ColType.string, true, false, false, true⟩ =
      ["PRIMARY KEY"] := by
  constructor
  · decide
  · rfl

/-- **C6, amended.** Schema validation fails exactly when the table
name is empty (or whitespace), there are no columns, no column is
primary, or column names repeat. An `autoIncrement` flag on a
non-`number` column is not rejected: `AUTOINCREMENT` is simply left out
of the emitted column constraints, which contain it exactly when the
column is a `number` column with the flag set. -/
theorem C6_amended (schema : TableSchema) (c : Column) :
    (validateTableSchema schema ≠ none ↔
      jsTrim schema.name = "" ∨ schema.columns = [] ∨
      (∀ col ∈ schema.columns, col.primary = false) ∨
      ¬ (schema.columns.map fun col => col.name).Nodup) ∧
    ("AUTOINCREMENT" ∈ buildConstraintList c ↔
      c.type = ColType.number ∧ c.autoIncrement = true) := by
  constructor
  · unfold validateTableSchema
    split_ifs with h1 h2 h3 h4
    · constructor
      · intro _
        exact Or.inl h1
      · intro _
        simp
    · constructor
      · intro _
        exact Or.inr (Or.inl (List.isEmpty_iff.mp h2))
      · intro _
        simp
    · have hany : schema.columns.any (fun c => c.primary) = false := by
        cases hx : schema.columns.any (fun c => c.primary) with
        | false => rfl
        | true => rw [hx] at h3; simp at h3
      have hprim : ∀ col ∈ schema.columns, col.primary = false := by
        intro col hcol
        simpa using (List.any_eq_false.mp hany) col hcol
      constructor
      · intro _
        exact Or.inr (Or.inr (Or.inl hprim))
      · intro _
        simp
    · have hnd : ¬ (schema.columns.map fun col => col.name).Nodup := by
        intro hn
        exact h4 ((dedup_length_eq_iff _).mpr hn)
      constructor
      · intro _
        exact Or.inr (Or.inr (Or.inr hnd))
      · intro _
        simp
    · constructor
      · intro h
        exact absurd rfl h
      · intro h
        rcases h with h | h | h | h
        · exact absurd h h1
        · exact absurd (by simp [h]) h2
        · have hany : schema.columns.any (fun c => c.primary) = true := by
            cases hx : schema.columns.any (fun c => c.primary) with
            | true => rfl
            | false => exact absurd (by simp [hx]) h3
          rcases List.any_eq_true.mp hany with ⟨col, hcol, hp⟩
          have := h col hcol
          simp [this] at hp
        · exact absurd ((dedup_length_eq_iff _).mp (by omega)) h
  · unfold buildConstraintList
    constructor
    · intro h
      rcases List.mem_append.mp h with h' | h'
      · rcases List.mem_append.mp h' with h'' | h''
        · rcases List.mem_append.mp h'' with h3 | h3
          · split_ifs at h3 <;> simp_all
          · split_ifs at h3 with hc <;> simp_all
        · split_ifs at h'' <;> simp_all
      · split_ifs at h' <;> simp_all
    · intro h
      have : "AUTOINCREMENT" ∈
          (if c.type = ColType.number ∧ c.autoIncrement then ["AUTOINCREMENT"] else []) := by
        simp [h]
      simp only [List.mem_append]
      exact Or.inl (Or.inl (Or.inr this))

/-- **C2.** A predicate with no meaningful condition is exactly one
that `hasValidWhereConditions` rejects; on such a predicate, `update`
(with non-empty values) and `delete` raise MissingPredicate before any
SQL executes (the modelled result is the error, so no query reaches the
engine and no row changes); and `update` with an empty values object
raises EmptyUpdate. -/
theorem C2_predicate_safety (tbl : String) (w : WhereClause)
    (values : List (String × JSVal)) :
    (noMeaningfulCondition w ↔ hasValidWhereConditions w = false) ∧
    (noMeaningfulCondition w → values ≠ [] →
      updateOp tbl values (some w) = OpResult.err DbError.missingPredicate) ∧
    (noMeaningfulCondition w → deleteOp tbl (some w) = OpResult.err DbError.missingPredicate) ∧
    updateOp tbl [] (some w) = OpResult.err DbError.emptyUpdate := by
  have hiff : noMeaningfulCondition w ↔ hasValidWhereConditions w = false := by
    unfold hasValidWhereConditions
    split_ifs with h1 h2 h3 h4 h5 h6 h7 h8 h9
    · simp only [eq_self_iff_true, iff_true]
      have h1' := h1
      unfold WhereClause.isEmptyObj at h1'
      simp only [Bool.and_eq_true, List.isEmpty_iff, Option.isNone_iff_eq_none] at h1'
      obtain ⟨⟨⟨⟨⟨⟨⟨hf, hl⟩, hg⟩, hlt⟩, hn⟩, hge⟩, hle⟩, ho⟩ := h1'
      refine ⟨hf, ?_, ?_, ?_, ?_, ?_, ?_, ?_⟩ <;> simp [hl, hg, hlt, hn, hge, hle, ho, optKeyCount]
    · simp only [Bool.not_eq_true', iff_false]
      intro nm
      rw [nm.1] at h2
      simp at h2
    · simp only [Bool.not_eq_true', iff_false]
      intro nm
      have := nm.2.1
      omega
    · simp only [Bool.not_eq_true', iff_false]
      intro nm
      have hor := nm.2.2.2.2.2.2.2
      cases ho : w.orConds with
      | none => rw [ho] at h4; simp at h4
      | some l =>
          rw [ho] at h4 hor
          simp only at hor
          rw [hor] at h4
          simp at h4
    · simp only [Bool.not_eq_true', iff_false]
      intro nm
      have := nm.2.2.1
      omega
    · simp only [Bool.not_eq_true', iff_false]
      intro nm
      have := nm.2.2.2.1
      omega
    · simp only [Bool.not_eq_true', iff_false]
      intro nm
      have := nm.2.2.2.2.1
      omega
    · simp only [Bool.not_eq_true', iff_false]
      intro nm
      have := nm.2.2.2.2.2.1
      omega
    · simp only [Bool.not_eq_true', iff_false]
      intro nm
      have := nm.2.2.2.2.2.2.1
      omega
    · simp only [eq_self_iff_true, iff_true]
      refine ⟨?_, ?_, ?_, ?_, ?_, ?_, ?_, ?_⟩
      · simpa [List.isEmpty_iff] using h2
      · omega
      · omega
      · omega
      · omega
      · omega
      · omega
      · cases ho : w.orConds with
        | none => trivial
        | some l =>
            rw [ho] at h4
            simp only [Bool.not_eq_true', Bool.not_eq_false] at h4
            simpa [List.isEmpty_iff] using h4
  refine ⟨hiff, ?_, ?_, ?_⟩
  · intro nm hne
    have hv := hiff.mp nm
    have hvE : values.isEmpty = false := by
      cases hx : values.isEmpty with
      | false => rfl
      | true => exact absurd (List.isEmpty_iff.mp hx) hne
    simp [updateOp, validateUpdateOptions, hvE, hv]
  · intro nm
    have hv := hiff.mp nm
    simp [deleteOp, validateDeleteOptions, hv]
  · simp [updateOp, validateUpdateOptions]

/-- **C2, witness.** The concrete meaningless predicate `{OR: []}`:
update with one value and delete raise MissingPredicate, and an empty
values object raises EmptyUpdate. -/
theorem C2_witness :
    hasValidWhereConditions WhereClause.orEmpty = false ∧
    updateOp "t" [("a", JSVal.num 1)] (some WhereClause.orEmpty) =
      OpResult.err DbError.missingPredicate ∧
    deleteOp "t" (some WhereClause.orEmpty) = OpResult.err DbError.missingPredicate ∧
    updateOp "t" [] (some WhereClause.orEmpty) = OpResult.err DbError.emptyUpdate := by
  have nm : noMeaningfulCondition WhereClause.orEmpty :=
    ⟨rfl, rfl, rfl, rfl, rfl, rfl, rfl, rfl⟩
  exact ⟨(C2_predicate_safety "t" WhereClause.orEmpty []).1.mp nm,
    (C2_predicate_safety "t" WhereClause.orEmpty [("a", JSVal.num 1)]).2.1 nm (by simp),
    (C2_predicate_safety "t" WhereClause.orEmpty []).2.2.1 nm,
    (C2_predicate_safety "t" WhereClause.orEmpty []).2.2.2⟩

/-- **C7.** What `importFromJson` actually does at a failing input.
With a batch whose insert throws (here the oracle throws "dup" on the
two-record batch): under `fail` the rethrown batch error is caught by
the method's own outer `try/catch` and the call returns normally with
`errors = ["Import failed: dup"]` — the error is swallowed into the
returned statistics (the remaining batch is not processed); under
`ignore` the error is accumulated as a `"Batch error: …"` entry and the
remaining batch is imported. -/
theorem C7_code_behavior :
    importFromJson ConflictRes.fail
        (fun b => if b.length = 2 then Except.error "dup" else Except.ok ())
        [[[("a", JSVal.num 1)], [("a", JSVal.num 2)]], [[("a", JSVal.num 3)]]] =
      ⟨0, 0, ["Import failed: dup"]⟩ ∧
    importFromJson ConflictRes.ignore
        (fun b => if b.length = 2 then Except.error "dup" else Except.ok ())
        [[[("a", JSVal.num 1)], [("a", JSVal.num 2)]], [[("a", JSVal.num 3)]]] =
      ⟨1, 2, ["Batch error: dup"]⟩ :=
  ⟨rfl, rfl⟩

/-- Chunking by a positive size and flattening gives back the list. -/
theorem chunk_flatten_aux {α : Type} (size : Nat) (hs : 0 < size) :
    ∀ (n : Nat) (l : List α), l.length ≤ n → (chunk l size).flatten = l := by
  intro n
  induction n with
  | zero =>
      intro l hl
      have : l = [] := List.length_eq_zero.mp (Nat.le_zero.mp hl)
      subst this
      simp [chunk]
  | succ n ih =>
      intro l hl
      cases l with
      | nil => simp [chunk]
      | cons x xs =>
          have hsz : ¬ size = 0 := Nat.pos_iff_ne_zero.mp hs
          have hlen : ((x :: xs).drop size).length ≤ n := by
            rw [List.length_drop]
            simp only [List.length_cons] at hl ⊢
            omega
          unfold chunk
          rw [dif_neg hsz, List.flatten_cons, ih ((x :: xs).drop size) hlen]
          exact List.take_append_drop size (x :: xs)

/-- Flattening a chunked list recovers it. -/
theorem chunk_flatten {α : Type} (l : List α) (size : Nat) (hs : 0 < size) :
    (chunk l size).flatten = l :=
  chunk_flatten_aux size hs l.length l le_rfl

/-- Flattening after mapping a map over the inner lists commutes. -/
theorem flatten_map_map {α β : Type} (g : α → β) (l : List (List α)) :
    (l.map fun b => b.map g).flatten = l.flatten.map g := by
  induction l with
  | nil => rfl
  | cons b t ih =>
      simp only [List.map_cons, List.flatten_cons, List.map_append, ih]

/-- **C10.** For a non-empty record batch, `insert`, `bulkInsert` and
`upsert` all take the inserted column list from the first record's
keys, and bind every record of the batch against exactly that list:
`bulkInsert`'s chunked bindings flatten to one binding per input record
in order; a key absent from the column list contributes nothing to a
record's binding; and a column missing from a record is bound as the
encoding of `undefined`. -/
theorem C10_insert_column_binding (tbl : String) (records : List JsRecord)
    (batchSize : Nat) (conflictColumns : List String)
    (h : records ≠ []) (hbs : 0 < batchSize) :
    insertColumns records = (records.head h).map Prod.fst ∧
    (insertPlan tbl records).2 =
      records.map (fun r => formatRecordValuesForInsert r (insertColumns records)) ∧
    (bulkInsertBindings records batchSize).flatten =
      records.map (fun r => formatRecordValuesForInsert r (insertColumns records)) ∧
    (upsertPlan tbl records conflictColumns none).2 =
      records.map (fun r => formatRecordValuesForInsert r (insertColumns records)) ∧
    (∀ (r : JsRecord) (cols : List String) (k : String) (v : JSVal), k ∉ cols →
      formatRecordValuesForInsert ((k, v) :: r) cols =
        formatRecordValuesForInsert r cols) ∧
    (∀ (r : JsRecord) (cols : List String) (i : Nat) (c : String),
      cols.get? i = some c → r.find? (fun kv => kv.1 = c) = none →
      (formatRecordValuesForInsert r cols).get? i =
        some (encodeParam JSVal.undefVal)) := by
  refine ⟨?_, rfl, ?_, rfl, ?_, ?_⟩
  · cases records with
    | nil => exact absurd rfl h
    | cons r rest => rfl
  · unfold bulkInsertBindings
    rw [flatten_map_map, chunk_flatten records batchSize hbs]
  · intro r cols k v hk
    unfold formatRecordValuesForInsert
    apply List.map_congr_left
    intro c hc
    have hkc : (k = c) = False := by
      simp only [eq_iff_iff, iff_false]
      intro hkc
      exact hk (hkc ▸ hc)
    simp [jsGet, List.find?, hkc]
  · intro r cols i c hi hfind
    unfold formatRecordValuesForInsert
    rw [List.get?_map, hi]
    simp [jsGet, hfind]

/-- **C10, witness.** Two records with different keys, batch size 1:
the column list is the first record's key, and the second record —
which lacks that key — is bound as the encoding of `undefined`. -/
theorem C10_insert_column_binding_witness :
    insertColumns [[("a", JSVal.num 1)], [("b", JSVal.str "x")]] = ["a"] ∧
    (bulkInsertBindings [[("a", JSVal.num 1)], [("b", JSVal.str "x")]] 1).flatten =
      [[SqlParam.i 1], [SqlParam.s ""]] := by
  have T := C10_insert_column_binding "t"
      [[("a", JSVal.num 1)], [("b", JSVal.str "x")]] 1 []
      (List.cons_ne_nil _ _) Nat.one_pos
  refine ⟨?_, ?_⟩
  · rw [T.1]
    rfl
  · rw [T.2.2.1]
    rfl

/-- Counting placeholders distributes over string append. -/
theorem countQ_append (a b : String) : countQ (a ++ b) = countQ a + countQ b := by
  unfold countQ
  rw [String.data_append, List.count_append]

/-- Counting placeholders distributes over a join whose separator has
no placeholder. -/
theorem countQ_joinSep (sep : String) (hsep : countQ sep = 0) (l : List String) :
    countQ (joinSep sep l) = (l.map countQ).sum := by
  induction l with
  | nil => rfl
  | cons x t ih =>
      cases t with
      | nil => simp [joinSep]
      | cons y rest =>
          rw [joinSep, countQ_append, countQ_append, hsep, ih]
          simp [Nat.add_assoc]

/-- A clean key contains no placeholder. -/
theorem countQ_clean (k : String) (h : keyClean k = true) : countQ k = 0 := by
  simp only [keyClean, List.contains, Bool.not_eq_true'] at h
  unfold countQ
  rw [List.count_eq_zero]
  intro hm
  rw [← List.elem_iff] at hm
  rw [hm] at h
  exact Bool.noConfusion h

/-- Map-projection of the clause texts of one operator component. -/
theorem map_fst_optClausePairs (o : Option (List (String × JSVal))) (op : String) :
    (optClausePairs o op).map Prod.fst = optConds o op := by
  cases o <;> simp [optClausePairs, optConds]

/-- One clause, one parameter: flattening the parameter components of a
keyed pair list yields the encoded values in key order. -/
theorem flatMap_snd_map_pair (l : List (String × JSVal)) (g : String × JSVal → String) :
    (l.map fun kv => (g kv, [encodeParam kv.2])).flatMap Prod.snd =
      parseParameters (l.map Prod.snd) := by
  induction l with
  | nil => rfl
  | cons kv t ih => simp [parseParameters, List.flatMap_cons, ih]

/-- Flattened parameters of one operator component. -/
theorem flatMap_snd_optClausePairs (o : Option (List (String × JSVal))) (op : String) :
    (optClausePairs o op).flatMap Prod.snd = parseParameters (optValues o) := by
  cases o with
  | none => rfl
  | some kvs => exact flatMap_snd_map_pair kvs _

/-- Placeholder/parameter alignment within one operator component. -/
theorem align_optClausePairs (o : Option (List (String × JSVal))) (op : String)
    (hop : countQ op = 0) (hcl : optKeysClean o = true) :
    ∀ p ∈ optClausePairs o op, countQ p.1 = p.2.length := by
  cases o with
  | none => intro p hp; exact absurd hp (List.not_mem_nil p)
  | some kvs =>
      intro p hp
      rcases List.mem_map.mp hp with ⟨kv, hkv, rfl⟩
      have hck : keyClean kv.1 = true := List.all_eq_true.mp hcl kv hkv
      show countQ (kv.1 ++ " " ++ op ++ " ?") = 1
      rw [countQ_append, countQ_append, countQ_append, countQ_clean kv.1 hck, hop]
      rfl

/-- Sum of placeholder counts over key-plus-suffix clauses: one
placeholder per clean key when the suffix has exactly one. -/
theorem sum_countQ_pairs (l : List (String × JSVal)) (suffix : String)
    (hsu : countQ suffix = 1)
    (hcl : l.all (fun kv => keyClean kv.1) = true) :
    ((l.map fun kv => kv.1 ++ suffix).map countQ).sum = l.length := by
  induction l with
  | nil => rfl
  | cons kv t ih =>
      simp only [List.all_cons, Bool.and_eq_true] at hcl
      simp only [List.map_cons, List.sum_cons, List.length_cons]
      rw [countQ_append, countQ_clean kv.1 hcl.1, hsu, ih hcl.2]
      omega

/-- Placeholder/parameter alignment for one element of an `OR` array. -/
theorem align_orCond (c : OrCond)
    (hcf : c.fields.all (fun kv => keyClean kv.1) = true)
    (hcl : optKeysClean c.likePats = true) :
    countQ (orCondSql c) = (orCondParams c).length := by
  cases hl : c.likePats with
  | some pats =>
      rw [hl] at hcl
      simp only [optKeysClean] at hcl
      simp only [orCondSql, orCondParams, hl]
      rw [countQ_joinSep " AND " rfl, sum_countQ_pairs pats " LIKE ?" rfl hcl]
      simp [parseParameters]
  | none =>
      simp only [orCondSql, orCondParams, hl]
      rw [countQ_joinSep " AND " rfl, sum_countQ_pairs c.fields " = ?" rfl hcf]
      simp [parseParameters]

/-- **C3, counterexample.** On a predicate with one equality field and
one LIKE pattern, the compiled fragment puts LIKE first and the
equality last — not equality first as the claim orders them. -/
theorem C3_counterexample :
    buildWhereClause
        ⟨[("id", JSVal.num 1)], some [("name", JSVal.str "J%")],
          none, none, none, none, none, none⟩ =
      "WHERE name LIKE ? AND id = ?" ∧
    buildWhereClauseSpecOrder
        ⟨[("id", JSVal.num 1)], some [("name", JSVal.str "J%")],
          none, none, none, none, none, none⟩ =
      "WHERE id = ? AND name LIKE ?" ∧
    buildWhereClause
        ⟨[("id", JSVal.num 1)], some [("name", JSVal.str "J%")],
          none, none, none, none, none, none⟩ ≠
      buildWhereClauseSpecOrder
        ⟨[("id", JSVal.num 1)], some [("name", JSVal.str "J%")],
          none, none, none, none, none, none⟩ := by
  refine ⟨rfl, rfl, ?_⟩
  decide

/-- **C3, amended.** The compiled WHERE fragment AND-combines its
clauses in the order LIKE, then the comparisons (`>`, `<`, `!=`, `>=`,
`<=`), then OR, then the implicit equality fields last; and the
parameter vector lists bound values in exactly the order in which the
clauses emit their placeholders: both the fragment and the parameter
vector are projections of one aligned emission sequence, in which (for
placeholder-free column names) every clause carries exactly as many
placeholders as parameters. -/
theorem C3_amended (w : WhereClause) :
    buildWhereClause w = renderWhere (emittedClauses w) ∧
    extractWhereParameters w = (emittedClauses w).flatMap Prod.snd ∧
    (w.keysClean = true → ∀ p ∈ emittedClauses w, countQ p.1 = p.2.length) := by
  refine ⟨?_, ?_, ?_⟩
  · by_cases hE : w.isEmptyObj = true
    · have hE' := hE
      simp only [WhereClause.isEmptyObj, Bool.and_eq_true, List.isEmpty_iff,
        Option.isNone_iff_eq_none] at hE'
      obtain ⟨⟨⟨⟨⟨⟨⟨hf, hl⟩, hg⟩, hlt⟩, hn⟩, hge⟩, hle⟩, ho⟩ := hE'
      have hemit : emittedClauses w = [] := by
        unfold emittedClauses
        rw [hf, hl, hg, hlt, hn, hge, hle, ho]
        rfl
      simp [buildWhereClause, hE, renderWhere, hemit]
    · have hmap : (emittedClauses w).map Prod.fst =
          optConds w.likePats "LIKE" ++ optConds w.gtPats ">" ++
          optConds w.ltPats "<" ++ optConds w.nePats "!=" ++
          optConds w.gtePats ">=" ++ optConds w.ltePats "<=" ++
          (match w.orConds with
           | some conds => ["(" ++ joinSep " OR " (conds.map orCondSql) ++ ")"]
           | none => []) ++
          w.fields.map (fun kv => kv.1 ++ " = ?") := by
        unfold emittedClauses
        simp only [List.map_append, map_fst_optClausePairs, List.map_map]
        cases w.orConds <;> simp [Function.comp]
      unfold buildWhereClause renderWhere
      rw [if_neg hE, ← hmap]
      cases hEm : emittedClauses w with
      | nil => simp
      | cons p t => simp
  · unfold extractWhereParameters emittedClauses
    rw [List.flatMap_append, List.flatMap_append, List.flatMap_append,
      List.flatMap_append, List.flatMap_append, List.flatMap_append,
      List.flatMap_append]
    rw [flatMap_snd_optClausePairs, flatMap_snd_optClausePairs,
      flatMap_snd_optClausePairs, flatMap_snd_optClausePairs,
      flatMap_snd_optClausePairs, flatMap_snd_optClausePairs,
      flatMap_snd_map_pair]
    congr 1
    cases w.orConds <;> simp
  · intro hclean p hp
    have hclean' := hclean
    simp only [WhereClause.keysClean, Bool.and_eq_true] at hclean'
    obtain ⟨⟨⟨⟨⟨⟨⟨hcf, hcl⟩, hcg⟩, hclt⟩, hcn⟩, hcge⟩, hcle⟩, hco⟩ := hclean'
    unfold emittedClauses at hp
    rcases List.mem_append.mp hp with hp | hp
    case inr =>
      rcases List.mem_map.mp hp with ⟨kv, hkv, rfl⟩
      have hck : keyClean kv.1 = true := List.all_eq_true.mp hcf kv hkv
      show countQ (kv.1 ++ " = ?") = 1
      rw [countQ_append, countQ_clean kv.1 hck]
      rfl
    rcases List.mem_append.mp hp with hp | hp
    case inr =>
      cases ho : w.orConds with
      | none => rw [ho] at hp; exact absurd hp (List.not_mem_nil p)
      | some conds =>
          rw [ho] at hp hco
          rcases List.mem_singleton.mp hp with rfl
          show countQ ("(" ++ joinSep " OR " (conds.map orCondSql) ++ ")") =
            (conds.flatMap orCondParams).length
          rw [countQ_append, countQ_append, countQ_joinSep " OR " rfl,
            List.length_flatMap, List.map_map]
          have : ∀ c ∈ conds, countQ (orCondSql c) = (orCondParams c).length := by
            intro c hc
            have := List.all_eq_true.mp hco c hc
            simp only [Bool.and_eq_true] at this
            exact align_orCond c this.1 this.2
          have hsum : (conds.map (countQ ∘ orCondSql)).sum =
              (conds.map (List.length ∘ orCondParams)).sum := by
            congr 1
            exact List.map_congr_left fun c hc => this c hc
          rw [hsum]
          show 0 + _ + 0 = _
          omega
    rcases List.mem_append.mp hp with hp | hp
    case inr => exact align_optClausePairs _ "<=" rfl hcle p hp
    rcases List.mem_append.mp hp with hp | hp
    case inr => exact align_optClausePairs _ ">=" rfl hcge p hp
    rcases List.mem_append.mp hp with hp | hp
    case inr => exact align_optClausePairs _ "!=" rfl hcn p hp
    rcases List.mem_append.mp hp with hp | hp
    case inr => exact align_optClausePairs _ "<" rfl hclt p hp
    rcases List.mem_append.mp hp with hp | hp
    case inr => exact align_optClausePairs _ ">" rfl hcg p hp
    case inl => exact align_optClausePairs _ "LIKE" rfl hcl p hp

/-- **C3, witness** for the key-cleanliness hypothesis of the amended
alignment: the LIKE clause of a concrete predicate carries exactly one
placeholder for its one parameter. -/
theorem C3_amended_witness :
    countQ "name LIKE ?" = [SqlParam.s "J%"].length :=
  (C3_amended ⟨[("id", JSVal.num 1)], some [("name", JSVal.str "J%")],
      none, none, none, none, none, none⟩).2.2 (by decide)
    ("name LIKE ?", [SqlParam.s "J%"]) (by decide)

/-- After `updateStats`, the four conservation equations follow from
the created/destroyed ledger alone. -/
theorem poolInv_updateStats (s : PoolSt)
    (h : s.stats.totalCreated = s.stats.totalDestroyed + s.connections.length) :
    PoolInv (updateStats s) := by
  refine ⟨h, rfl, ?_, rfl⟩
  show (s.connections.filter fun c => c.inUse).length +
      (s.connections.length - (s.connections.filter fun c => c.inUse).length) =
    s.connections.length
  have hle := List.length_filter_le (fun c => c.inUse) s.connections
  omega

/-- The conservation equations only read a few stats fields, the
connection count and the waiter count; states agreeing on those satisfy
them together. -/
theorem poolInv_transfer (s t : PoolSt)
    (h1 : t.stats.totalCreated = s.stats.totalCreated)
    (h2 : t.stats.totalDestroyed = s.stats.totalDestroyed)
    (h3 : t.stats.totalConnections = s.stats.totalConnections)
    (h4 : t.stats.activeConnections = s.stats.activeConnections)
    (h5 : t.stats.idleConnections = s.stats.idleConnections)
    (h6 : t.stats.waitingClients = s.stats.waitingClients)
    (hc : t.connections.length = s.connections.length)
    (hw : t.waiting.length = s.waiting.length)
    (hInv : PoolInv s) : PoolInv t := by
  unfold PoolInv at *
  rw [h1, h2, h3, h4, h5, h6, hc, hw]
  exact hInv

/-- `destroyConnection` preserves the conservation equations. -/
theorem poolInv_destroy (s : PoolSt) (hInv : PoolInv s) (id : Nat) :
    PoolInv (destroyConnection id s) := by
  unfold destroyConnection
  split_ifs with h
  · apply poolInv_updateStats
    simp only
    rcases List.any_eq_true.mp h with ⟨c, hc, hp⟩
    have hlen := List.length_eraseP_add_one (p := fun c => decide (c.id = id)) hc hp
    have h1 := hInv.1
    omega
  · exact hInv

/-- A fold of `destroyConnection` preserves the conservation
equations. -/
theorem poolInv_foldl_destroy (ids : List Nat) :
    ∀ s : PoolSt, PoolInv s →
      PoolInv (ids.foldl (fun st i => destroyConnection i st) s) := by
  induction ids with
  | nil => intro s hInv; exact hInv
  | cons i t ih =>
      intro s hInv
      exact ih (destroyConnection i s) (poolInv_destroy s hInv i)

/-- **C8, counterexample.** After `close` on a pool holding one
connection, the conservation equations fail: the connection map is
cleared but `totalDestroyed` stays 0 while `totalCreated` stays 1 (and
`totalConnections` keeps its stale pre-close value), so
`totalCreated − totalDestroyed = |connections|` does not hold after
shutdown. -/
theorem C8_counterexample :
    (closePool (createConnection 0 0 PoolSt.init)).stats.totalCreated = 1 ∧
    (closePool (createConnection 0 0 PoolSt.init)).stats.totalDestroyed = 0 ∧
    (closePool (createConnection 0 0 PoolSt.init)).connections.length = 0 ∧
    ¬ PoolInv (closePool (createConnection 0 0 PoolSt.init)) := by
  refine ⟨rfl, rfl, rfl, ?_⟩
  intro hInv
  have := hInv.1
  simp [closePool, createConnection, updateStats, PoolSt.init] at this

/-- **C8, amended.** The statistics equations
`totalCreated = totalDestroyed + |connections|`,
`activeConnections + idleConnections = totalConnections = |connections|`
and `waitingClients = |waiters|` hold in the initial state and are
preserved by every modelled pool operation — create, acquire (all three
paths), the acquire timeout, release (all paths), destroy, and the idle
reaper — but not by `close`, which clears the collections without
incrementing `totalDestroyed` or refreshing the statistics. -/
theorem C8_amended (cfg : PoolCfg) (s : PoolSt) (hInv : PoolInv s) :
    PoolInv PoolSt.init ∧
    (∀ id now, PoolInv (createConnection id now s)) ∧
    (∀ newId wid now, PoolInv (acquire cfg newId wid now s)) ∧
    (∀ wid, PoolInv (timeoutWaiter wid s)) ∧
    (∀ id now, PoolInv (release cfg id now s)) ∧
    (∀ id, PoolInv (destroyConnection id s)) ∧
    (∀ now, PoolInv (cleanupIdleConnections cfg now s)) := by
  have hcreate : ∀ id now, PoolInv (createConnection id now s) := by
    intro id now
    apply poolInv_updateStats
    simp only [List.length_append, List.length_cons, List.length_nil]
    have := hInv.1
    omega
  refine ⟨⟨rfl, rfl, rfl, rfl⟩, hcreate, ?_, ?_, ?_, poolInv_destroy s hInv, ?_⟩
  · intro newId wid now
    unfold acquire
    cases hav : s.available with
    | cons connId rest =>
        apply poolInv_updateStats
        simp only [setConnUse, List.length_map]
        exact hInv.1
    | nil =>
        split_ifs with hlt
        · apply poolInv_updateStats
          simp only [setConnUse, createConnection, updateStats, List.length_map,
            List.length_append, List.length_cons, List.length_nil]
          have := hInv.1
          omega
        · apply poolInv_updateStats
          simp only
          exact hInv.1
  · intro wid
    apply poolInv_updateStats
    simp only
    exact hInv.1
  · intro id now
    unfold release
    cases hf : s.connections.find? fun c => c.id = id with
    | none => exact hInv
    | some conn =>
        dsimp only [setConnUse]
        split_ifs with hage
        · apply poolInv_destroy
          exact poolInv_transfer s _ rfl rfl rfl rfl rfl rfl
            (by simp [List.length_map]) rfl hInv
        · cases hw : s.waiting with
          | cons w restW =>
              apply poolInv_updateStats
              simp only [List.length_map]
              exact hInv.1
          | nil =>
              apply poolInv_updateStats
              simp only [List.length_map]
              exact hInv.1
  · intro now
    exact poolInv_foldl_destroy _ s hInv

/-- **C8, witness.** The equations hold concretely in the empty initial
state and after creating one connection there. -/
theorem C8_amended_witness :
    PoolInv PoolSt.init ∧ PoolInv (createConnection 5 0 PoolSt.init) := by
  have T := C8_amended ⟨10, 2, 30000, 3600000⟩ PoolSt.init ⟨rfl, rfl, rfl, rfl⟩
  exact ⟨T.1, T.2.1 5 0⟩

/-- Order in a list survives appending on the right. -/
theorem before_append_right (x y : Nat) (l t : List Nat) (h : beforeIn x y l) :
    beforeIn x y (l ++ t) := by
  obtain ⟨a, b, c, rfl⟩ := h
  exact ⟨a, b, c ++ t, by simp⟩

/-- An element of a list precedes a freshly appended one. -/
theorem before_append_elem (x y : Nat) (l : List Nat) (h : x ∈ l) :
    beforeIn x y (l ++ [y]) := by
  obtain ⟨a, b, rfl⟩ := List.append_of_mem h
  exact ⟨a, b, [], by simp⟩

/-- Order in a list survives dropping a head that is not the earlier
element. -/
theorem before_cons_of_ne_head (x y z : Nat) (l : List Nat)
    (h : beforeIn x y (z :: l)) (hzx : z ≠ x) : beforeIn x y l := by
  obtain ⟨a, b, c, heq⟩ := h
  cases a with
  | nil =>
      injection heq with h1 h2
      exact absurd h1 hzx
  | cons hd tl =>
      injection heq with h1 h2
      exact ⟨tl, b, c, h2⟩

/-- Order in a list survives erasing an unrelated element. -/
theorem before_erase (x y z : Nat) (l : List Nat) (hb : beforeIn x y l)
    (hzx : z ≠ x) (hzy : z ≠ y) : beforeIn x y (l.erase z) := by
  obtain ⟨a, b, c, rfl⟩ := hb
  by_cases hza : z ∈ a
  · rw [List.erase_append_left (x :: (b ++ (y :: c))) hza]
    exact ⟨a.erase z, b, c, rfl⟩
  · rw [List.erase_append_right (x :: (b ++ (y :: c))) hza,
      List.erase_cons_tail (by simpa using fun h => hzx h.symm)]
    by_cases hzb : z ∈ b
    · rw [List.erase_append_left (y :: c) hzb]
      exact ⟨a, b.erase z, c, rfl⟩
    · rw [List.erase_append_right (y :: c) hzb,
        List.erase_cons_tail (by simpa using fun h => hzy h.symm)]
      exact ⟨a, b, c.erase z, rfl⟩

/-- A list headed by `y` in which `x` still precedes some `y` holds two
copies of `y`. -/
theorem two_of_before_head (x y : Nat) (l : List Nat) (hne : x ≠ y)
    (h : beforeIn x y (y :: l)) : 2 ≤ (y :: l).count y := by
  obtain ⟨a, b, c, heq⟩ := h
  cases a with
  | nil =>
      injection heq with h1 h2
      exact absurd h1.symm hne
  | cons hd tl =>
      injection heq with h1 h2
      subst h1
      subst h2
      simp [List.count_cons, List.count_append]
      omega

/-- One step of the waiter-queue discipline preserves the FIFO
invariant, provided neither waiter re-enqueues and `w1` does not time
out. -/
theorem fifoInv_step (w1 w2 : Nat) (hne : w1 ≠ w2) (s : QState) (e : PoolEv)
    (he1 : e ≠ PoolEv.enq w1) (he2 : e ≠ PoolEv.enq w2) (he3 : e ≠ PoolEv.tout w1)
    (hInv : FifoInv w1 w2 s) : FifoInv w1 w2 (stepQ s e) := by
  obtain ⟨hc1, hc2, hc3, hc4⟩ := hInv
  cases e with
  | enq w =>
      have hw1 : w ≠ w1 := fun h => he1 (by rw [h])
      have hw2 : w ≠ w2 := fun h => he2 (by rw [h])
      refine ⟨hc1, ?_, ?_, ?_⟩
      · intro hm
        rcases List.mem_append.mp hm with hm | hm
        · obtain ⟨hres, hcase⟩ := hc2 hm
          exact ⟨hres, hcase.imp id (before_append_right w1 w2 s.queue [w])⟩
        · exact absurd (List.mem_singleton.mp hm).symm hw2
      · have hA : w2 ≠ w := fun h => hw2 h.symm
        have hB : w ≠ w2 := hw2
        simp only [stepQ, List.count_append, List.count_cons, List.count_nil,
          beq_iff_eq] at *
        simp only [List.count_append, List.count_cons, List.count_nil,
          beq_iff_eq, hA, hB, if_false] at *
        omega
      · have hA : w1 ≠ w := fun h => hw1 h.symm
        have hB : w ≠ w1 := hw1
        simp only [stepQ, List.count_append, List.count_cons, List.count_nil,
          beq_iff_eq] at *
        simp only [List.count_append, List.count_cons, List.count_nil,
          beq_iff_eq, hA, hB, if_false] at *
        omega
  | rel =>
      cases hq : s.queue with
      | nil =>
          have hstep : stepQ s PoolEv.rel = s := by
            simp [stepQ, hq]
          rw [hstep]
          exact ⟨hc1, hc2, hc3, hc4⟩
      | cons w rest =>
          have hstep : stepQ s PoolEv.rel = ⟨rest, s.resolved ++ [w]⟩ := by
            simp [stepQ, hq]
          rw [hq] at hc2 hc3 hc4
          rw [hstep]
          unfold FifoInv
          dsimp only
          refine ⟨?_, ?_, ?_, ?_⟩
          · intro hm
            rcases List.mem_append.mp hm with hm | hm
            · exact before_append_right w1 w2 s.resolved [w] (hc1 hm)
            · have hww2 : w = w2 := (List.mem_singleton.mp hm).symm
              subst hww2
              obtain ⟨hres, hcase⟩ := hc2 (List.mem_cons_self w rest)
              rcases hcase with hcase | hcase
              · exact before_append_elem w1 w s.resolved hcase
              · have h2 := two_of_before_head w1 w rest hne hcase
                simp only [List.count_append] at hc3
                omega
          · intro hm
            obtain ⟨hres, hcase⟩ := hc2 (List.mem_cons_of_mem w hm)
            have hww2 : w ≠ w2 := by
              intro h
              have hcnt : 0 < rest.count w2 := List.count_pos_iff.mpr hm
              have h2 : 2 ≤ ((w :: rest) ++ s.resolved).count w2 := by
                subst h
                simp only [List.count_append, List.count_cons_self]
                omega
              omega
            constructor
            · intro hcontra
              rcases List.mem_append.mp hcontra with hcontra | hcontra
              · exact hres hcontra
              · exact hww2 (List.mem_singleton.mp hcontra).symm
            · by_cases hww1 : w = w1
              · subst hww1
                exact Or.inl (List.mem_append.mpr (Or.inr (List.mem_singleton.mpr rfl)))
              · rcases hcase with hcase | hcase
                · exact Or.inl (List.mem_append.mpr (Or.inl hcase))
                · exact Or.inr (before_cons_of_ne_head w1 w2 w rest hcase hww1)
          · simp only [List.count_append, List.count_cons, List.count_nil] at hc3 ⊢
            omega
          · simp only [List.count_append, List.count_cons, List.count_nil] at hc4 ⊢
            omega
  | tout w =>
      have hw1 : w ≠ w1 := fun h => he3 (by rw [h])
      refine ⟨hc1, ?_, ?_, ?_⟩
      · intro hm
        simp only [stepQ] at hm ⊢
        have hmq : w2 ∈ s.queue := List.mem_of_mem_erase hm
        obtain ⟨hres, hcase⟩ := hc2 hmq
        have hww2 : w ≠ w2 := by
          intro h
          subst h
          have h1 : (s.queue.erase w).count w = s.queue.count w - 1 :=
            List.count_erase_self w s.queue
          have h2 := List.count_pos_iff.mpr hm
          have h3 := List.count_pos_iff.mpr hmq
          simp only [List.count_append] at hc3
          omega
        refine ⟨hres, hcase.imp id ?_⟩
        intro hb
        exact before_erase w1 w2 w s.queue hb hw1 hww2
      · simp only [stepQ, List.count_append] at *
        have := List.count_erase w2 w s.queue
        omega
      · simp only [stepQ, List.count_append] at *
        have := List.count_erase w1 w s.queue
        omega

/-- Running any admissible event sequence preserves the FIFO
invariant. -/
theorem fifoInv_runQ (w1 w2 : Nat) (hne : w1 ≠ w2) (es : List PoolEv)
    (hev : ∀ e ∈ es, e ≠ PoolEv.enq w1 ∧ e ≠ PoolEv.enq w2 ∧ e ≠ PoolEv.tout w1) :
    ∀ s : QState, FifoInv w1 w2 s → FifoInv w1 w2 (runQ s es) := by
  induction es with
  | nil => intro s hInv; exact hInv
  | cons e t ih =>
      intro s hInv
      have he := hev e (List.mem_cons_self e t)
      exact ih (fun e' he' => hev e' (List.mem_cons_of_mem e he'))
        (stepQ s e) (fifoInv_step w1 w2 hne s e he.1 he.2.1 he.2.2 hInv)

/-- **C9.** Waiters are served strictly FIFO: start from any queue in
which waiter `w1` stands strictly ahead of waiter `w2` (each enqueued
once), and run any sequence of release, timeout and further enqueue
events in which neither waiter re-enqueues and `w1` never times out.
If `w2` ends up resolved, then `w1` was resolved strictly before it. -/
theorem C9_fifo (w1 w2 : Nat) (q1 q2 q3 : List Nat) (es : List PoolEv)
    (hne : w1 ≠ w2)
    (hcount1 : (q1 ++ (w1 :: (q2 ++ (w2 :: q3)))).count w1 ≤ 1)
    (hcount2 : (q1 ++ (w1 :: (q2 ++ (w2 :: q3)))).count w2 ≤ 1)
    (hev : ∀ e ∈ es, e ≠ PoolEv.enq w1 ∧ e ≠ PoolEv.enq w2 ∧ e ≠ PoolEv.tout w1)
    (hres : w2 ∈ (runQ ⟨q1 ++ (w1 :: (q2 ++ (w2 :: q3))), []⟩ es).resolved) :
    beforeIn w1 w2 (runQ ⟨q1 ++ (w1 :: (q2 ++ (w2 :: q3))), []⟩ es).resolved := by
  have hInv0 : FifoInv w1 w2 ⟨q1 ++ (w1 :: (q2 ++ (w2 :: q3))), []⟩ := by
    refine ⟨?_, ?_, ?_, ?_⟩
    · intro hm
      exact absurd hm (List.not_mem_nil w2)
    · intro _
      exact ⟨List.not_mem_nil w2, Or.inr ⟨q1, q2, q3, rfl⟩⟩
    · simpa using hcount2
    · simpa using hcount1
  exact (fifoInv_runQ w1 w2 hne es hev _ hInv0).1 hres

/-- **C9, witness.** Two waiters queued in order, two releases: the
first release resolves `w1`, the second `w2`, and `w1` precedes `w2` in
the resolution order. -/
theorem C9_fifo_witness :
    beforeIn 1 2 (runQ ⟨[1, 2], []⟩ [PoolEv.rel, PoolEv.rel]).resolved :=
  C9_fifo 1 2 [] [] [] [PoolEv.rel, PoolEv.rel] (by decide) (by decide) (by decide)
    (by intro e he
        fin_cases he <;> exact ⟨by decide, by decide, by decide⟩)
    (by decide)

end BunSqlite
